import Mathlib

/-
Verification of the ISE MCP fetch engine.

This file gives a shallow embedding of the core fetch engine of the
repository (src/ise_mcp_server/api/client.py and config/settings.py):
JSON documents, the cache-key computation, the in-memory TTL cache, the
retry/backoff controller, the endpoint-category catalog, and the
paginator `_get_all_pages`, together with theorems settling the frozen
claims about them.

Modelling conventions:
- Python dicts are association lists in insertion order (`Params`);
  dict assignment updates the first occurrence in place or appends.
- `json.dumps` is modelled by `dumpChars` (default separators, i.e.
  a comma-space between items and a colon-space after keys; only the
  quote and backslash characters are escaped — the `ensure_ascii` hex
  escaping of control and non-ASCII characters is not modelled, which
  affects no stated property since both sides of every comparison use
  the same serializer).  `json.loads` is modelled by `loads`, a strict
  parser for exactly that output grammar.
- Fractional seconds (backoff times, cache timestamps and TTLs) are ℚ.
- Python built-in partial operations (`in`, subscription, `.get`,
  `int(...)`, floor division) are modelled as `Except Err` values, so
  the exception paths of the source are explicit.
-/

set_option maxHeartbeats 1000000

namespace ISEMCP

/-- A JSON-representable document: the values `response.json()` can produce
and `json.dumps` can serialize (ints for numbers; the repository's
documents carry no floats). -/
inductive JVal where
  | null : JVal
  | bool : Bool → JVal
  | num : Int → JVal
  | str : String → JVal
  | arr : List JVal → JVal
  | obj : List (String × JVal) → JVal

mutual
/-- Structural equality test on JSON values (Python `==` on parsed JSON). -/
def beqJ : JVal → JVal → Bool
  | JVal.null, JVal.null => true
  | JVal.bool a, JVal.bool b => a == b
  | JVal.num a, JVal.num b => a == b
  | JVal.str a, JVal.str b => a == b
  | JVal.arr a, JVal.arr b => beqArr a b
  | JVal.obj a, JVal.obj b => beqObj a b
  | _, _ => false

/-- Elementwise equality test on JSON arrays. -/
def beqArr : List JVal → List JVal → Bool
  | [], [] => true
  | x :: xs, y :: ys => beqJ x y && beqArr xs ys
  | _, _ => false

/-- Pairwise equality test on JSON objects (insertion order significant,
matching this model's representation). -/
def beqObj : List (String × JVal) → List (String × JVal) → Bool
  | [], [] => true
  | kv :: kvs, lw :: lws => (kv.1 == lw.1) && beqJ kv.2 lw.2 && beqObj kvs lws
  | _, _ => false
end

instance : BEq JVal := ⟨beqJ⟩

/-- A Python dict of query parameters, as an association list in insertion
order. -/
abbrev Params := List (String × JVal)

/-- Dict lookup: value of the first (and in a real dict, only) binding of
key `k`. -/
def plookup (k : String) : Params → Option JVal
  | [] => none
  | (k2, v) :: rest => if k2 = k then some v else plookup k rest

/-- Python dict assignment `d[k] = v`: update the first binding of `k` in
place, else append a new binding at the end. -/
def dictSet : Params → String → JVal → Params
  | [], k, v => [(k, v)]
  | (k2, v2) :: rest, k, v =>
      if k2 = k then (k2, v) :: rest else (k2, v2) :: dictSet rest k v

/-- A real Python dict never has two bindings of the same key. -/
def nodupKeys (l : Params) : Prop := (l.map Prod.fst).Nodup

/-- The double-quote character. -/
def quoteC : Char := Char.ofNat 34

/-- The backslash character. -/
def backslashC : Char := Char.ofNat 92

/-- The opening curly brace character. -/
def lbraceC : Char := Char.ofNat 123

/-- The closing curly brace character. -/
def rbraceC : Char := Char.ofNat 125

/-- The decimal digit character for `d` (meaningful for `d < 10`). -/
def digitChar (d : Nat) : Char := Char.ofNat (48 + d)

/-- Decimal rendering of a natural number, most significant digit first. -/
def natChars (n : Nat) : List Char :=
  if n = 0 then [digitChar 0] else ((Nat.digits 10 n).map digitChar).reverse

/-- Decimal rendering of an integer, as Python `repr`/`json.dumps` print it. -/
def intChars (n : Int) : List Char :=
  if n < 0 then '-' :: natChars n.natAbs else natChars n.toNat

/-- JSON string escaping of one character (quote and backslash; see the
file header for the `ensure_ascii` simplification). -/
def escChar (c : Char) : List Char :=
  if c = quoteC then [backslashC, quoteC]
  else if c = backslashC then [backslashC, backslashC]
  else [c]

/-- JSON string escaping of a character list. -/
def escape : List Char → List Char
  | [] => []
  | c :: cs => escChar c ++ escape cs

/-- A JSON string literal: quote, escaped body, quote. -/
def dumpStrChars (s : String) : List Char :=
  quoteC :: (escape s.data ++ [quoteC])

mutual
/-- `json.dumps` with default separators, insertion order preserved. -/
def dumpChars : JVal → List Char
  | JVal.null => ['n', 'u', 'l', 'l']
  | JVal.bool true => ['t', 'r', 'u', 'e']
  | JVal.bool false => ['f', 'a', 'l', 's', 'e']
  | JVal.num n => intChars n
  | JVal.str s => dumpStrChars s
  | JVal.arr [] => ['[', ']']
  | JVal.arr (x :: xs) => '[' :: (dumpChars x ++ (dumpArrTail xs ++ [']']))
  | JVal.obj [] => [lbraceC, rbraceC]
  | JVal.obj (kv :: kvs) =>
      lbraceC :: (dumpStrChars kv.1 ++
        (':' :: ' ' :: (dumpChars kv.2 ++ (dumpObjTail kvs ++ [rbraceC]))))

/-- The ", item" tail of a serialized array. -/
def dumpArrTail : List JVal → List Char
  | [] => []
  | x :: xs => ',' :: ' ' :: (dumpChars x ++ dumpArrTail xs)

/-- The ", key: value" tail of a serialized object. -/
def dumpObjTail : List (String × JVal) → List Char
  | [] => []
  | kv :: kvs =>
      ',' :: ' ' :: (dumpStrChars kv.1 ++
        (':' :: ' ' :: (dumpChars kv.2 ++ dumpObjTail kvs)))
end

/-- `json.dumps(v)` as a string. -/
def dumps (v : JVal) : String := String.mk (dumpChars v)

/-- Insert one pair into a key-sorted pair list (stable insertion sort step). -/
def insertPair (p : String × JVal) : List (String × JVal) → List (String × JVal)
  | [] => [p]
  | q :: qs => if p.1 ≤ q.1 then p :: q :: qs else q :: insertPair p qs

/-- Sort an association list by key, lexicographically on code points, as
Python `sorted` does for `sort_keys=True`. -/
def sortPairs : List (String × JVal) → List (String × JVal)
  | [] => []
  | p :: ps => insertPair p (sortPairs ps)

mutual
/-- Recursively sort every object's keys, modelling the effect of
`json.dumps(..., sort_keys=True)` on the rendered value. -/
def sortKeysDeep : JVal → JVal
  | JVal.obj kvs => JVal.obj (sortPairs (sortVals kvs))
  | JVal.arr xs => JVal.arr (sortArr xs)
  | JVal.null => JVal.null
  | JVal.bool b => JVal.bool b
  | JVal.num n => JVal.num n
  | JVal.str s => JVal.str s

/-- Key-sort every element of an array. -/
def sortArr : List JVal → List JVal
  | [] => []
  | x :: xs => sortKeysDeep x :: sortArr xs

/-- Key-sort every value of an object, keeping binding order (the outer
`sortPairs` then orders the bindings). -/
def sortVals : List (String × JVal) → List (String × JVal)
  | [] => []
  | kv :: kvs => (kv.1, sortKeysDeep kv.2) :: sortVals kvs
end

/-- `json.dumps(v, sort_keys=True)` as a string. -/
def dumpsSorted (v : JVal) : String := String.mk (dumpChars (sortKeysDeep v))

/-- `ISEApiClient._get_cache_key`: the deterministic cache key
`f"{url}:{json.dumps(params, sort_keys=True) if params else str-of-empty-dict}"`. -/
def get_cache_key (url : String) (params : Params) : String :=
  let sorted_params :=
    if params.isEmpty then String.mk [lbraceC, rbraceC] else dumpsSorted (JVal.obj params)
  url ++ ":" ++ sorted_params

/-- The paginated-result cache key built in `_get_all_pages`:
`"paginated:" + _get_cache_key(base_url, params-without-page)`. -/
def paginatedCacheKey (url : String) (params : Params) : String :=
  "paginated:" ++ get_cache_key url (params.filter (fun kv => !(kv.1 == "page")))

/-- One entry of the in-memory cache: serialized body, insertion time and
time-to-live (`aiocache.Cache.MEMORY` with `JsonSerializer`-free string
payloads, as the client stores `json.dumps(result)`). -/
structure CacheEntry where
  key : String
  body : String
  insertedAt : ℚ
  ttl : ℚ
deriving DecidableEq

/-- The cache contents. -/
abbrev CacheState := List CacheEntry

/-- The entry currently stored under `k`, if any. -/
def cacheFind (c : CacheState) (k : String) : Option CacheEntry :=
  c.find? (fun e => e.key == k)

/-- `cache.get(k)` at time `now`: the stored body, unless the entry has
expired (an entry is live strictly before `insertedAt + ttl`; the expiry
callback scheduled at `ttl` removes it from then on). -/
def cacheGet (c : CacheState) (now : ℚ) (k : String) : Option String :=
  match cacheFind c k with
  | some e => if now < e.insertedAt + e.ttl then some e.body else none
  | none => none

/-- `cache.set(k, body, ttl)` at time `now`: atomically replace any entry
under `k`. -/
def cacheSet (c : CacheState) (k body : String) (now ttl : ℚ) : CacheState :=
  ⟨k, body, now, ttl⟩ :: c.filter (fun e => !(e.key == k))

/-- Greedily split off the leading run of decimal digits. -/
def takeDigits : List Char → List Char × List Char
  | [] => ([], [])
  | c :: cs =>
      if c.isDigit then
        let r := takeDigits cs
        (c :: r.1, r.2)
      else ([], c :: cs)

/-- Numeric value of a decimal digit character. -/
def charToDigit (c : Char) : Nat := c.toNat - 48

/-- Numeric value of a most-significant-first digit string. -/
def charsToNat (ds : List Char) : Nat :=
  Nat.ofDigits 10 ((ds.map charToDigit).reverse)

/-- Parse a nonempty run of digits as a natural number. -/
def parseNatChars (cs : List Char) : Option (Nat × List Char) :=
  match takeDigits cs with
  | ([], _) => none
  | (ds, rest) => some (charsToNat ds, rest)

/-- Parse an optionally negated decimal integer. -/
def parseIntChars (cs : List Char) : Option (Int × List Char) :=
  match cs with
  | c :: rest =>
      if c = '-' then (parseNatChars rest).map (fun p => (-(p.1 : Int), p.2))
      else (parseNatChars cs).map (fun p => ((p.1 : Int), p.2))
  | [] => none

/-- Parse the body of a JSON string after its opening quote, undoing the
escapes `escChar` produces; the closing quote terminates it. -/
def parseStrBody : List Char → Option (List Char × List Char)
  | [] => none
  | c :: cs =>
      if c = quoteC then some ([], cs)
      else if c = backslashC then
        match cs with
        | [] => none
        | e :: cs2 => (parseStrBody cs2).map (fun p => (e :: p.1, p.2))
      else (parseStrBody cs).map (fun p => (c :: p.1, p.2))

/-- True when the input does not continue with a digit (so a greedy number
parse stopped here cannot swallow it). -/
def noDigit : List Char → Bool
  | [] => true
  | c :: _ => !c.isDigit

mutual
/-- Strict parser for the grammar `dumpChars` emits, structurally recursive
on a fuel bound; models `json.loads` on serializer output. -/
def parseVal : Nat → List Char → Option (JVal × List Char)
  | 0, _ => none
  | fuel + 1, cs =>
    match cs with
    | [] => none
    | c :: rest =>
      if c = 'n' then
        match rest with
        | 'u' :: 'l' :: 'l' :: r => some (JVal.null, r)
        | _ => none
      else if c = 't' then
        match rest with
        | 'r' :: 'u' :: 'e' :: r => some (JVal.bool true, r)
        | _ => none
      else if c = 'f' then
        match rest with
        | 'a' :: 'l' :: 's' :: 'e' :: r => some (JVal.bool false, r)
        | _ => none
      else if c = quoteC then
        (parseStrBody rest).map (fun p => (JVal.str (String.mk p.1), p.2))
      else if c = '[' then
        match rest with
        | [] => none
        | d :: rest2 =>
          if d = ']' then some (JVal.arr [], rest2)
          else
            match parseVal fuel rest with
            | some (v, r1) =>
                (parseArrRest fuel r1).map (fun p => (JVal.arr (v :: p.1), p.2))
            | none => none
      else if c = lbraceC then
        match rest with
        | [] => none
        | d :: rest2 =>
          if d = rbraceC then some (JVal.obj [], rest2)
          else
            match parseMember fuel rest with
            | some (kv, r1) =>
                (parseObjRest fuel r1).map (fun p => (JVal.obj (kv :: p.1), p.2))
            | none => none
      else if c = '-' || c.isDigit then
        (parseIntChars (c :: rest)).map (fun p => (JVal.num p.1, p.2))
      else none

/-- Parse `, value` continuations of an array up to the closing bracket. -/
def parseArrRest : Nat → List Char → Option (List JVal × List Char)
  | 0, _ => none
  | fuel + 1, cs =>
    match cs with
    | [] => none
    | c :: rest =>
      if c = ']' then some ([], rest)
      else if c = ',' then
        match rest with
        | [] => none
        | d :: rest2 =>
          if d = ' ' then
            match parseVal fuel rest2 with
            | some (v, r1) => (parseArrRest fuel r1).map (fun p => (v :: p.1, p.2))
            | none => none
          else none
      else none

/-- Parse one `"key": value` member of an object. -/
def parseMember : Nat → List Char → Option ((String × JVal) × List Char)
  | 0, _ => none
  | fuel + 1, cs =>
    match cs with
    | [] => none
    | c :: rest =>
      if c = quoteC then
        match parseStrBody rest with
        | some (kcs, r1) =>
          match r1 with
          | ':' :: ' ' :: r2 =>
            match parseVal fuel r2 with
            | some (v, r3) => some ((String.mk kcs, v), r3)
            | none => none
          | _ => none
        | none => none
      else none

/-- Parse `, "key": value` continuations of an object up to the closing
brace. -/
def parseObjRest : Nat → List Char → Option (List (String × JVal) × List Char)
  | 0, _ => none
  | fuel + 1, cs =>
    match cs with
    | [] => none
    | c :: rest =>
      if c = rbraceC then some ([], rest)
      else if c = ',' then
        match rest with
        | [] => none
        | d :: rest2 =>
          if d = ' ' then
            match parseMember fuel rest2 with
            | some (kv, r1) => (parseObjRest fuel r1).map (fun p => (kv :: p.1, p.2))
            | none => none
          else none
      else none
end

/-- `json.loads` on serializer output: parse the whole string as one value. -/
def loads (s : String) : Option JVal :=
  match parseVal (s.data.length + 1) s.data with
  | some (v, []) => some v
  | _ => none

/-- Errors a fetch can surface: tool errors (HTTP/network/unexpected),
terminal rate-limit failures, and Python runtime exceptions the model
makes explicit (`TypeError`, `KeyError`, `ValueError`,
`ZeroDivisionError`, `json` decode errors).  `loopExit` marks the
implicit `return None` after the retry loop, which `retry_never_exits`
shows unreachable. -/
inductive Err where
  | tool : String → Err
  | rateLimit : String → Err
  | typeErr : Err
  | keyErr : String → Err
  | valueErr : Err
  | zeroDiv : Err
  | jsonErr : Err
  | loopExit : Err
deriving DecidableEq

/-- Is `small` a prefix of `big`? -/
def isPrefLC : List Char → List Char → Bool
  | [], _ => true
  | _ :: _, [] => false
  | a :: as, b :: bs => a = b && isPrefLC as bs

/-- Is `small` a contiguous substring of `big` (Python `small in big` on
strings)? -/
def isSubLC (small : List Char) : List Char → Bool
  | [] => small.isEmpty
  | b :: bs => isPrefLC small (b :: bs) || isSubLC small bs

/-- Python `k in v`: key test for dicts, membership for lists, substring
test for strings; `TypeError` otherwise (numbers, booleans, `None` are
not containers). -/
def pyIn (k : String) (v : JVal) : Except Err Bool :=
  match v with
  | JVal.obj kvs => Except.ok (plookup k kvs).isSome
  | JVal.arr xs => Except.ok (xs.contains (JVal.str k))
  | JVal.str s => Except.ok (isSubLC k.data s.data)
  | _ => Except.error Err.typeErr

/-- Python `v[k]` with a string key: dict lookup (`KeyError` when absent),
`TypeError` on any non-dict. -/
def pySub (v : JVal) (k : String) : Except Err JVal :=
  match v with
  | JVal.obj kvs =>
    match plookup k kvs with
    | some x => Except.ok x
    | none => Except.error (Err.keyErr k)
  | _ => Except.error Err.typeErr

/-- Python `v.get(k, d)`: dict lookup with default; `AttributeError`
(modelled as `typeErr`) on any non-dict. -/
def pyGetD (v : JVal) (k : String) (d : JVal) : Except Err JVal :=
  match v with
  | JVal.obj kvs => Except.ok ((plookup k kvs).getD d)
  | _ => Except.error Err.typeErr

/-- Python `acc.extend(more)`: `acc` must be a list; `more` may be any
iterable — a list extends elementwise, a string by its one-character
strings, a dict by its keys.  `none` models the `TypeError` or
`AttributeError` raised otherwise. -/
def pyExtend (acc more : JVal) : Option JVal :=
  match acc, more with
  | JVal.arr xs, JVal.arr ys => some (JVal.arr (xs ++ ys))
  | JVal.arr xs, JVal.str s =>
      some (JVal.arr (xs ++ s.data.map (fun ch => JVal.str (String.mk [ch]))))
  | JVal.arr xs, JVal.obj kvs =>
      some (JVal.arr (xs ++ kvs.map (fun kv => JVal.str kv.1)))
  | _, _ => none

/-- Python `int(v)`: identity on ints, 0/1 on booleans, decimal parse of a
string (`ValueError` on failure), `TypeError` otherwise. -/
def pyInt (v : JVal) : Except Err Int :=
  match v with
  | JVal.num n => Except.ok n
  | JVal.bool b => Except.ok (if b then 1 else 0)
  | JVal.str s =>
    match parseIntChars s.data with
    | some (n, []) => Except.ok n
    | _ => Except.error Err.valueErr
  | _ => Except.error Err.typeErr

/-- A value usable as an int in Python arithmetic (`+`, `-`, `//`): ints
and booleans coerce; everything else raises `TypeError`. -/
def pyArithInt (v : JVal) : Except Err Int :=
  match v with
  | JVal.num n => Except.ok n
  | JVal.bool b => Except.ok (if b then 1 else 0)
  | _ => Except.error Err.typeErr

/-- Python dict assignment on a JSON value known to be a dict at every
reachable call site (`combined_result['SearchResult'] = ...` and the
nested `['resources'] = ...`); a no-op on non-dicts, which the paginator
has already excluded by the time it builds the merged document. -/
def jSet (v : JVal) (k : String) (x : JVal) : JVal :=
  match v with
  | JVal.obj l => JVal.obj (dictSet l k x)
  | other => other

/-- `settings.ENDPOINT_CATEGORIES`: the ordered catalog of
(path pattern, category) pairs. -/
def ENDPOINT_CATEGORIES : List (String × String) :=
  [("/ers/config/identitygroup", "auth"),
   ("/ers/config/idstoresequence", "auth"),
   ("/ers/config/internaluser", "auth"),
   ("/ers/config/adminuser", "auth"),
   ("/ers/config/activedirectory", "auth"),
   ("/ers/config/networkdevice", "device"),
   ("/ers/config/endpoint", "device"),
   ("/ers/config/node", "device"),
   ("/ers/config/endpointgroup", "device"),
   ("/api/v1/policy", "policy"),
   ("/ers/config/authorizationprofile", "policy"),
   ("/ers/config/allowedprotocols", "policy"),
   ("/ers/config/sgacl", "policy"),
   ("/ers/config/sgt", "policy")]

/-- First catalog entry whose pattern occurs in the path wins; no match
falls through to "default". -/
def categoryOf : List (String × String) → String → String
  | [], _ => "default"
  | (pat, cat) :: rest, p => if isSubLC pat.data p.data then cat else categoryOf rest p

/-- `settings.get_endpoint_category`: the rate-limit category of an API
path. -/
def get_endpoint_category (api_path : String) : String :=
  categoryOf ENDPOINT_CATEGORIES api_path

/-- Outcome of one transport attempt, as `_execute_request` classifies it:
a JSON body, a backend 429 (`RateLimitExceededError`), or any other
failure (`ToolError`), which the retry controller never retries. -/
inductive Outcome where
  | success : JVal → Outcome
  | rateLimited : String → Outcome
  | fatal : String → Outcome

/-- `ISEApiClient.MAX_RETRIES`. -/
def MAX_RETRIES : Nat := 3

/-- `ISEApiClient.MIN_BACKOFF_TIME` (0.5 s). -/
def MIN_BACKOFF_TIME : ℚ := 1 / 2

/-- `ISEApiClient.MAX_BACKOFF_TIME` (10 s). -/
def MAX_BACKOFF_TIME : ℚ := 10

/-- The `while retries <= MAX_RETRIES` loop of
`_make_rate_limited_request`, with the attempt outcomes given by `att`
(attempt `i` is the request made when `retries = i` — only `RateLimited`
outcomes advance the counter).  Returns the result together with the
list of backoff sleeps performed, in order.  The fuel counts the
remaining loop iterations, `MAX_RETRIES + 1 - retries`; fuel 0 is the
Python `return None` falling out of the loop, which never happens. -/
def retryLoop (att : Nat → Outcome) : Nat → Nat → List ℚ → Except Err JVal × List ℚ
  | 0, _, sleeps => (Except.error Err.loopExit, sleeps)
  | fuel + 1, retries, sleeps =>
    match att retries with
    | Outcome.success b => (Except.ok b, sleeps)
    | Outcome.fatal m => (Except.error (Err.tool m), sleeps)
    | Outcome.rateLimited m =>
      let backoff := min (MIN_BACKOFF_TIME * 2 ^ retries) MAX_BACKOFF_TIME
      if MAX_RETRIES ≤ retries then (Except.error (Err.rateLimit m), sleeps)
      else retryLoop att fuel (retries + 1) (sleeps ++ [backoff])

/-- `ISEApiClient._make_rate_limited_request`: run the retry loop from
`retries = 0` with no sleeps performed yet. -/
def make_rate_limited_request (att : Nat → Outcome) : Except Err JVal × List ℚ :=
  retryLoop att (MAX_RETRIES + 1) 0 []

/-- A single-page fetch (`ISEApiClient.get` with `auto_paginate=False`):
compute the cache key, consult the cache when allowed, otherwise obtain
the outcome of the rate-limited request from `bk` and write a fresh
entry through on success.  `bk` maps the request parameters to the
result `_make_rate_limited_request` would produce for them. -/
def getSingle (bk : Params → Except Err JVal) (c : CacheState) (now ttl : ℚ)
    (baseUrl : String) (ps : Params) (useCache : Bool) :
    Except Err JVal × CacheState :=
  let key := get_cache_key baseUrl ps
  match (if useCache then cacheGet c now key else none) with
  | some s =>
    match loads s with
    | some v => (Except.ok v, c)
    | none => (Except.error Err.jsonErr, c)
  | none =>
    match bk ps with
    | Except.ok v =>
        (Except.ok v, if useCache then cacheSet c key (dumps v) now ttl else c)
    | Except.error e => (Except.error e, c)

/-- `ISEApiClient.MAX_PAGE_SIZE`. -/
def MAX_PAGE_SIZE : Int := 100

/-- The parameter preparation at the head of `_get_all_pages`: default the
page size to `MAX_PAGE_SIZE` when the caller gave none, then set
`page = 1`. -/
def preparePageParams (params : Params) : Params :=
  let rp :=
    if (plookup "size" params).isNone then dictSet params "size" (JVal.num MAX_PAGE_SIZE)
    else params
  dictSet rp "page" (JVal.num 1)

/-- The `for page in range(2, total_pages + 1)` loop of `_get_all_pages`:
fetch each page through the single-page path, extract its
`SearchResult.resources` and extend the accumulator; any error in the
body breaks out, keeping what was accumulated.  Also threads the cache
and records the parameter dict of every page request issued. -/
def pageLoop (bk : Params → Except Err JVal) (now ttl : ℚ) (baseUrl : String)
    (rp : Params) (useCache : Bool) :
    List Nat → JVal → CacheState → List Params → JVal × CacheState × List Params
  | [], acc, c, tr => (acc, c, tr)
  | n :: ns, acc, c, tr =>
    let ps := dictSet rp "page" (JVal.num (n : Int))
    let r := getSingle bk c now ttl baseUrl ps useCache
    let tr2 := tr ++ [ps]
    match r.1 with
    | Except.error _ => (acc, r.2, tr2)
    | Except.ok page =>
      match pySub page "SearchResult" with
      | Except.error _ => (acc, r.2, tr2)
      | Except.ok psr =>
        match pyGetD psr "resources" (JVal.arr []) with
        | Except.error _ => (acc, r.2, tr2)
        | Except.ok pres =>
          match pyExtend acc pres with
          | none => (acc, r.2, tr2)
          | some acc2 => pageLoop bk now ttl baseUrl rp useCache ns acc2 r.2 tr2

/-- `ISEApiClient._get_all_pages`: the paginated fetch.  Returns the
result, the cache after the call, and the parameter dicts of the
single-page requests issued, in order. -/
def getAllPages (bk : Params → Except Err JVal) (c : CacheState) (now ttl : ℚ)
    (iseBase apiPath : String) (params : Params) (useCache : Bool) :
    Except Err JVal × CacheState × List Params :=
  let rp := preparePageParams params
  let baseUrl := iseBase ++ apiPath
  let pagKey := paginatedCacheKey baseUrl rp
  match (if useCache then cacheGet c now pagKey else none) with
  | some s =>
    match loads s with
    | some v => (Except.ok v, c, [])
    | none => (Except.error Err.jsonErr, c, [])
  | none =>
    let fr := getSingle bk c now ttl baseUrl rp useCache
    let c1 := fr.2
    match fr.1 with
    | Except.error e => (Except.error e, c1, [rp])
    | Except.ok first =>
      match pyIn "SearchResult" first with
      | Except.error e => (Except.error e, c1, [rp])
      | Except.ok false => (Except.ok first, c1, [rp])
      | Except.ok true =>
        match pySub first "SearchResult" with
        | Except.error e => (Except.error e, c1, [rp])
        | Except.ok sr =>
          match pyIn "total" sr with
          | Except.error e => (Except.error e, c1, [rp])
          | Except.ok false => (Except.ok first, c1, [rp])
          | Except.ok true =>
            match pySub sr "total" with
            | Except.error e => (Except.error e, c1, [rp])
            | Except.ok tv =>
              match pyArithInt tv with
              | Except.error e => (Except.error e, c1, [rp])
              | Except.ok total_records =>
                match (plookup "size" rp).elim (Except.error (Err.keyErr "size")) pyInt with
                | Except.error e => (Except.error e, c1, [rp])
                | Except.ok page_size =>
                  if page_size = 0 then (Except.error Err.zeroDiv, c1, [rp])
                  else
                    let total_pages := Int.fdiv (total_records + page_size - 1) page_size
                    if total_pages ≤ 1 then (Except.ok first, c1, [rp])
                    else
                      match pyGetD sr "resources" (JVal.arr []) with
                      | Except.error e => (Except.error e, c1, [rp])
                      | Except.ok resources =>
                        let pages := List.range' 2 (total_pages.toNat - 1)
                        let lp := pageLoop bk now ttl baseUrl rp useCache pages resources c1 [rp]
                        let combined := jSet first "SearchResult" (jSet sr "resources" lp.1)
                        let c3 :=
                          if useCache then cacheSet lp.2.1 pagKey (dumps combined) now ttl
                          else lp.2.1
                        (Except.ok combined, c3, lp.2.2)

/-- The well-formed page document shape the paginator consumes:
`SearchResult` with a `total` count and a `resources` list. -/
def mkPageDoc (T : Int) (rs : List JVal) : JVal :=
  JVal.obj [("SearchResult", JVal.obj [("total", JVal.num T), ("resources", JVal.arr rs)])]

/-! Serializer/parser round trip.  These lemmas culminate in
`loads_dumps`, which both settles the serialize/deserialize half of the
cache round-trip claim and yields injectivity of the serializer (used to
tell distinct page-request cache keys apart). -/

theorem charToDigit_digitChar (d : Nat) (h : d < 10) : charToDigit (digitChar d) = d := by
  interval_cases d <;> rfl

theorem isDigit_digitChar (d : Nat) (h : d < 10) : (digitChar d).isDigit = true := by
  interval_cases d <;> rfl

theorem natChars_all_digits (n : Nat) : ∀ c ∈ natChars n, c.isDigit = true := by
  intro c hc
  unfold natChars at hc
  split at hc
  · simp only [List.mem_singleton] at hc
    subst hc
    rfl
  · simp only [List.mem_reverse, List.mem_map] at hc
    obtain ⟨d, hd, rfl⟩ := hc
    exact isDigit_digitChar d (Nat.digits_lt_base (by norm_num) hd)

theorem natChars_ne_nil (n : Nat) : natChars n ≠ [] := by
  unfold natChars
  split
  · simp
  · simpa [Nat.digits_ne_nil_iff_ne_zero] using by assumption

theorem charsToNat_natChars (n : Nat) : charsToNat (natChars n) = n := by
  by_cases h : n = 0
  · subst h
    rfl
  · unfold charsToNat natChars
    rw [if_neg h, List.map_reverse, List.reverse_reverse, List.map_map]
    have hcong : ∀ d ∈ Nat.digits 10 n, (charToDigit ∘ digitChar) d = id d := fun d hd =>
      charToDigit_digitChar d (Nat.digits_lt_base (by norm_num) hd)
    rw [List.map_congr_left hcong, List.map_id, Nat.ofDigits_digits]

theorem takeDigits_append (ds rest : List Char) (hds : ∀ c ∈ ds, c.isDigit = true)
    (hrest : noDigit rest = true) : takeDigits (ds ++ rest) = (ds, rest) := by
  induction ds with
  | nil =>
    simp only [List.nil_append]
    cases rest with
    | nil => rfl
    | cons c t =>
      have hc : c.isDigit = false := by simpa [noDigit] using hrest
      unfold takeDigits
      simp [hc]
  | cons c t ih =>
    have hc : c.isDigit = true := hds c (by simp)
    unfold takeDigits
    simp only [List.cons_append]
    simp [hc, ih (fun x hx => hds x (by simp [hx]))]

theorem parseNatChars_natChars (n : Nat) (rest : List Char) (h : noDigit rest = true) :
    parseNatChars (natChars n ++ rest) = some (n, rest) := by
  unfold parseNatChars
  rw [takeDigits_append _ _ (natChars_all_digits n) h]
  obtain ⟨c, t, hct⟩ := List.exists_cons_of_ne_nil (natChars_ne_nil n)
  have hval := charsToNat_natChars n
  rw [hct] at hval ⊢
  show some (charsToNat (c :: t), rest) = some (n, rest)
  rw [hval]

theorem parseIntChars_intChars (n : Int) (rest : List Char) (h : noDigit rest = true) :
    parseIntChars (intChars n ++ rest) = some (n, rest) := by
  unfold intChars
  by_cases hn : n < 0
  · rw [if_pos hn]
    have hval : -|n| = n := by rw [abs_of_neg hn, neg_neg]
    show parseIntChars ('-' :: (natChars n.natAbs ++ rest)) = some (n, rest)
    simp [parseIntChars, parseNatChars_natChars _ _ h, hval]
  · rw [if_neg hn]
    obtain ⟨c, t, hct⟩ := List.exists_cons_of_ne_nil (natChars_ne_nil n.toNat)
    have hc : c.isDigit = true := natChars_all_digits n.toNat c (by rw [hct]; simp)
    have hcne : ¬(c = '-') := by
      intro he
      rw [he] at hc
      exact absurd hc (by decide)
    have hstep : parseNatChars (natChars n.toNat ++ rest) = some (n.toNat, rest) :=
      parseNatChars_natChars _ _ h
    have hval : ((n.toNat : Nat) : Int) = n := Int.toNat_of_nonneg (not_lt.mp hn)
    rw [hct] at hstep ⊢
    rw [List.cons_append] at hstep ⊢
    simp [parseIntChars, hcne, hstep, hval]

theorem parseStrBody_quote (rest : List Char) :
    parseStrBody (quoteC :: rest) = some ([], rest) := by
  simp [parseStrBody.eq_def]

theorem parseStrBody_esc (e : Char) (rest : List Char) :
    parseStrBody (backslashC :: e :: rest) = (parseStrBody rest).map (fun p => (e :: p.1, p.2)) := by
  have hq : ¬ backslashC = quoteC := by decide
  rw [parseStrBody.eq_def]
  simp [hq]

theorem parseStrBody_other (c : Char) (rest : List Char) (h1 : ¬ c = quoteC)
    (h2 : ¬ c = backslashC) :
    parseStrBody (c :: rest) = (parseStrBody rest).map (fun p => (c :: p.1, p.2)) := by
  rw [parseStrBody.eq_def]
  simp [h1, h2]

theorem parseStrBody_escape (cs rest : List Char) :
    parseStrBody (escape cs ++ (quoteC :: rest)) = some (cs, rest) := by
  induction cs with
  | nil => simpa using parseStrBody_quote rest
  | cons c t ih =>
    show parseStrBody ((escChar c ++ escape t) ++ (quoteC :: rest)) = some (c :: t, rest)
    rw [List.append_assoc]
    unfold escChar
    by_cases h1 : c = quoteC
    · rw [if_pos h1]
      show parseStrBody (backslashC :: quoteC :: (escape t ++ (quoteC :: rest))) = _
      rw [parseStrBody_esc, ih]
      simp [h1]
    · rw [if_neg h1]
      by_cases h2 : c = backslashC
      · rw [if_pos h2]
        show parseStrBody (backslashC :: backslashC :: (escape t ++ (quoteC :: rest))) = _
        rw [parseStrBody_esc, ih]
        simp [h2]
      · rw [if_neg h2]
        show parseStrBody (c :: (escape t ++ (quoteC :: rest))) = _
        rw [parseStrBody_other c _ h1 h2, ih]
        rfl

theorem digit_ne (c : Char) (h : c.isDigit = true) :
    (¬ c = 'n') ∧ (¬ c = 't') ∧ (¬ c = 'f') ∧ (¬ c = quoteC) ∧ (¬ c = '[') ∧
      (¬ c = lbraceC) ∧ (¬ c = ']') ∧ (¬ c = rbraceC) ∧ (¬ c = ',') := by
  refine ⟨?_, ?_, ?_, ?_, ?_, ?_, ?_, ?_, ?_⟩ <;>
    (intro he; subst he; exact absurd h (by decide))

theorem parseVal_null (f : Nat) (r : List Char) :
    parseVal (f + 1) ('n' :: 'u' :: 'l' :: 'l' :: r) = some (JVal.null, r) := by
  rw [parseVal.eq_def]
  simp

theorem parseVal_true (f : Nat) (r : List Char) :
    parseVal (f + 1) ('t' :: 'r' :: 'u' :: 'e' :: r) = some (JVal.bool true, r) := by
  rw [parseVal.eq_def]
  simp

theorem parseVal_false (f : Nat) (r : List Char) :
    parseVal (f + 1) ('f' :: 'a' :: 'l' :: 's' :: 'e' :: r) = some (JVal.bool false, r) := by
  rw [parseVal.eq_def]
  simp

theorem parseVal_quote (f : Nat) (r : List Char) :
    parseVal (f + 1) (quoteC :: r) =
      (parseStrBody r).map (fun p => (JVal.str (String.mk p.1), p.2)) := by
  rw [parseVal.eq_def]
  simp [(by decide : ¬ quoteC = 'n'), (by decide : ¬ quoteC = 't'), (by decide : ¬ quoteC = 'f')]

theorem parseVal_arrNil (f : Nat) (r : List Char) :
    parseVal (f + 1) ('[' :: ']' :: r) = some (JVal.arr [], r) := by
  rw [parseVal.eq_def]
  simp [(by decide : ¬ '[' = quoteC)]

theorem parseVal_arrCons (f : Nat) (d : Char) (r : List Char) (hd : ¬ d = ']') :
    parseVal (f + 1) ('[' :: d :: r) =
      (match parseVal f (d :: r) with
       | some (v, r1) => (parseArrRest f r1).map (fun p => (JVal.arr (v :: p.1), p.2))
       | none => none) := by
  rw [parseVal.eq_def]
  simp [hd, (by decide : ¬ '[' = quoteC)]

theorem parseVal_objNil (f : Nat) (r : List Char) :
    parseVal (f + 1) (lbraceC :: rbraceC :: r) = some (JVal.obj [], r) := by
  rw [parseVal.eq_def]
  simp [(by decide : ¬ lbraceC = 'n'), (by decide : ¬ lbraceC = 't'),
    (by decide : ¬ lbraceC = 'f'), (by decide : ¬ lbraceC = quoteC),
    (by decide : ¬ lbraceC = '[')]

theorem parseVal_objCons (f : Nat) (d : Char) (r : List Char) (hd : ¬ d = rbraceC) :
    parseVal (f + 1) (lbraceC :: d :: r) =
      (match parseMember f (d :: r) with
       | some (kv, r1) => (parseObjRest f r1).map (fun p => (JVal.obj (kv :: p.1), p.2))
       | none => none) := by
  rw [parseVal.eq_def]
  simp [hd, (by decide : ¬ lbraceC = 'n'), (by decide : ¬ lbraceC = 't'),
    (by decide : ¬ lbraceC = 'f'), (by decide : ¬ lbraceC = quoteC),
    (by decide : ¬ lbraceC = '[')]

theorem parseVal_numHead (f : Nat) (c : Char) (r : List Char)
    (hc : c = '-' ∨ c.isDigit = true) :
    parseVal (f + 1) (c :: r) =
      (parseIntChars (c :: r)).map (fun p => (JVal.num p.1, p.2)) := by
  rcases hc with hc | hc
  · subst hc
    rw [parseVal.eq_def]
    simp [(by decide : ¬ '-' = quoteC), (by decide : ¬ '-' = lbraceC)]
  · obtain ⟨h1, h2, h3, h4, h5, h6, _, _, _⟩ := digit_ne c hc
    rw [parseVal.eq_def]
    simp [h1, h2, h3, h4, h5, h6, hc]

theorem parseArrRest_rb (f : Nat) (r : List Char) :
    parseArrRest (f + 1) (']' :: r) = some ([], r) := by
  rw [parseArrRest.eq_def]
  simp

theorem parseArrRest_comma (f : Nat) (r : List Char) :
    parseArrRest (f + 1) (',' :: ' ' :: r) =
      (match parseVal f r with
       | some (v, r1) => (parseArrRest f r1).map (fun p => (v :: p.1, p.2))
       | none => none) := by
  rw [parseArrRest.eq_def]
  simp

theorem parseMember_quote (f : Nat) (r : List Char) :
    parseMember (f + 1) (quoteC :: r) =
      (match parseStrBody r with
       | some (kcs, r1) =>
         (match r1 with
          | ':' :: ' ' :: r2 =>
            (match parseVal f r2 with
             | some (v, r3) => some ((String.mk kcs, v), r3)
             | none => none)
          | _ => none)
       | none => none) := by
  rw [parseMember.eq_def]
  simp

theorem parseObjRest_rb (f : Nat) (r : List Char) :
    parseObjRest (f + 1) (rbraceC :: r) = some ([], r) := by
  rw [parseObjRest.eq_def]
  simp

theorem parseObjRest_comma (f : Nat) (r : List Char) :
    parseObjRest (f + 1) (',' :: ' ' :: r) =
      (match parseMember f r with
       | some (kv, r1) => (parseObjRest f r1).map (fun p => (kv :: p.1, p.2))
       | none => none) := by
  rw [parseObjRest.eq_def]
  simp [(by decide : ¬ ',' = rbraceC)]

theorem intChars_head (n : Int) :
    ∃ c t, intChars n = c :: t ∧ (c = '-' ∨ c.isDigit = true) := by
  unfold intChars
  by_cases hn : n < 0
  · rw [if_pos hn]
    exact ⟨'-', _, rfl, Or.inl rfl⟩
  · rw [if_neg hn]
    obtain ⟨c, t, hct⟩ := List.exists_cons_of_ne_nil (natChars_ne_nil n.toNat)
    exact ⟨c, t, hct, Or.inr (natChars_all_digits _ c (by rw [hct]; simp))⟩

theorem dump_head (v : JVal) :
    ∃ c t, dumpChars v = c :: t ∧ ¬ c = ']' ∧ ¬ c = rbraceC := by
  cases v with
  | null => exact ⟨'n', _, rfl, by decide, by decide⟩
  | bool b => cases b
              · exact ⟨'f', _, rfl, by decide, by decide⟩
              · exact ⟨'t', _, rfl, by decide, by decide⟩
  | num n =>
    obtain ⟨c, t, hct, hc⟩ := intChars_head n
    refine ⟨c, t, by simp [dumpChars, hct], ?_, ?_⟩
    · rcases hc with hc | hc
      · subst hc; decide
      · exact (digit_ne c hc).2.2.2.2.2.2.1
    · rcases hc with hc | hc
      · subst hc; decide
      · exact (digit_ne c hc).2.2.2.2.2.2.2.1
  | str s => exact ⟨quoteC, _, rfl, by decide, by decide⟩
  | arr xs => cases xs with
              | nil => exact ⟨'[', _, rfl, by decide, by decide⟩
              | cons x t => exact ⟨'[', _, rfl, by decide, by decide⟩
  | obj kvs => cases kvs with
               | nil => exact ⟨lbraceC, _, rfl, by decide, by decide⟩
               | cons kv t => exact ⟨lbraceC, _, rfl, by decide, by decide⟩

theorem noDigit_arrTail (xs : List JVal) (rest : List Char) :
    noDigit (dumpArrTail xs ++ (']' :: rest)) = true := by
  cases xs with
  | nil => simp [dumpArrTail, noDigit]
  | cons x t => simp [dumpArrTail, noDigit]

theorem noDigit_objTail (kvs : List (String × JVal)) (rest : List Char) :
    noDigit (dumpObjTail kvs ++ (rbraceC :: rest)) = true := by
  cases kvs with
  | nil => simp [dumpObjTail, noDigit]; decide
  | cons kv t => simp [dumpObjTail, noDigit]

theorem strMk_data (s : String) : String.mk s.data = s := by
  cases s
  rfl

mutual
theorem rt_val : ∀ (v : JVal) (fuel : Nat) (rest : List Char),
    (dumpChars v).length < fuel → noDigit rest = true →
    parseVal fuel (dumpChars v ++ rest) = some (v, rest)
  | JVal.null, fuel, rest, hf, _ => by
    cases fuel with
    | zero => exact absurd hf (Nat.not_lt_zero _)
    | succ f => exact parseVal_null f rest
  | JVal.bool true, fuel, rest, hf, _ => by
    cases fuel with
    | zero => exact absurd hf (Nat.not_lt_zero _)
    | succ f => exact parseVal_true f rest
  | JVal.bool false, fuel, rest, hf, _ => by
    cases fuel with
    | zero => exact absurd hf (Nat.not_lt_zero _)
    | succ f => exact parseVal_false f rest
  | JVal.num n, fuel, rest, hf, hr => by
    cases fuel with
    | zero => exact absurd hf (Nat.not_lt_zero _)
    | succ f =>
      obtain ⟨c, t, hct, hc⟩ := intChars_head n
      have key : parseIntChars (intChars n ++ rest) = some (n, rest) :=
        parseIntChars_intChars n rest hr
      show parseVal (f + 1) (intChars n ++ rest) = some (JVal.num n, rest)
      rw [hct, List.cons_append] at key ⊢
      rw [parseVal_numHead f c _ hc, key]
      rfl
  | JVal.str s, fuel, rest, hf, _ => by
    cases fuel with
    | zero => exact absurd hf (Nat.not_lt_zero _)
    | succ f =>
      show parseVal (f + 1) ((quoteC :: (escape s.data ++ [quoteC])) ++ rest) =
        some (JVal.str s, rest)
      rw [List.cons_append, List.append_assoc, List.singleton_append]
      rw [parseVal_quote, parseStrBody_escape]
      simp [strMk_data]
  | JVal.arr [], fuel, rest, hf, _ => by
    cases fuel with
    | zero => exact absurd hf (Nat.not_lt_zero _)
    | succ f => exact parseVal_arrNil f rest
  | JVal.arr (x :: xs), fuel, rest, hf, _ => by
    cases fuel with
    | zero => exact absurd hf (Nat.not_lt_zero _)
    | succ f =>
      obtain ⟨d, t, hdt, hdne, _⟩ := dump_head x
      have hx : (dumpChars x).length < f := by
        simp [dumpChars] at hf
        omega
      have hxs : (dumpArrTail xs).length + 1 ≤ f := by
        simp [dumpChars] at hf
        omega
      show parseVal (f + 1) (('[' :: (dumpChars x ++ (dumpArrTail xs ++ [']']))) ++ rest) =
        some (JVal.arr (x :: xs), rest)
      have harr : (dumpChars x ++ (dumpArrTail xs ++ [']'])) ++ rest =
          dumpChars x ++ (dumpArrTail xs ++ (']' :: rest)) := by
        simp
      rw [List.cons_append, harr]
      have key := rt_val x f (dumpArrTail xs ++ (']' :: rest)) hx (noDigit_arrTail xs rest)
      rw [hdt, List.cons_append] at key ⊢
      rw [parseVal_arrCons f d _ hdne, key]
      simp [rt_arr xs f rest hxs]
  | JVal.obj [], fuel, rest, hf, _ => by
    cases fuel with
    | zero => exact absurd hf (Nat.not_lt_zero _)
    | succ f => exact parseVal_objNil f rest
  | JVal.obj ((k, v) :: kvs), fuel, rest, hf, _ => by
    cases fuel with
    | zero => exact absurd hf (Nat.not_lt_zero _)
    | succ f =>
      have hmem : (dumpStrChars k).length + 2 + (dumpChars v).length < f := by
        simp [dumpChars] at hf
        omega
      have hkvs : (dumpObjTail kvs).length + 1 ≤ f := by
        simp [dumpChars] at hf
        omega
      show parseVal (f + 1)
          ((lbraceC :: (dumpStrChars k ++
            (':' :: ' ' :: (dumpChars v ++ (dumpObjTail kvs ++ [rbraceC]))))) ++ rest) =
        some (JVal.obj ((k, v) :: kvs), rest)
      have hobj : (dumpStrChars k ++
            (':' :: ' ' :: (dumpChars v ++ (dumpObjTail kvs ++ [rbraceC])))) ++ rest =
          dumpStrChars k ++
            (':' :: ' ' :: (dumpChars v ++ (dumpObjTail kvs ++ (rbraceC :: rest)))) := by
        simp
      rw [List.cons_append, hobj]
      have key := rt_member (k, v) f (dumpObjTail kvs ++ (rbraceC :: rest)) hmem
        (noDigit_objTail kvs rest)
      show parseVal (f + 1)
          (lbraceC :: (quoteC :: ((escape k.data ++ [quoteC]) ++
            (':' :: ' ' :: (dumpChars v ++ (dumpObjTail kvs ++ (rbraceC :: rest))))))) = _
      rw [parseVal_objCons f quoteC _ (by decide)]
      have hre : dumpStrChars k ++
            (':' :: ' ' :: (dumpChars v ++ (dumpObjTail kvs ++ (rbraceC :: rest)))) =
          quoteC :: ((escape k.data ++ [quoteC]) ++
            (':' :: ' ' :: (dumpChars v ++ (dumpObjTail kvs ++ (rbraceC :: rest))))) := by
        simp [dumpStrChars]
      rw [hre] at key
      rw [key]
      simp [rt_obj kvs f rest hkvs]
termination_by v _ _ _ _ => sizeOf v

theorem rt_arr : ∀ (xs : List JVal) (fuel : Nat) (rest : List Char),
    (dumpArrTail xs).length + 1 ≤ fuel →
    parseArrRest fuel (dumpArrTail xs ++ (']' :: rest)) = some (xs, rest)
  | [], fuel, rest, hf => by
    cases fuel with
    | zero => omega
    | succ f => exact parseArrRest_rb f rest
  | x :: xs, fuel, rest, hf => by
    cases fuel with
    | zero => omega
    | succ f =>
      have hx : (dumpChars x).length < f := by
        simp [dumpArrTail] at hf
        omega
      have hxs : (dumpArrTail xs).length + 1 ≤ f := by
        simp [dumpArrTail] at hf
        omega
      show parseArrRest (f + 1)
          ((',' :: ' ' :: (dumpChars x ++ dumpArrTail xs)) ++ (']' :: rest)) =
        some (x :: xs, rest)
      have hnorm : (',' :: ' ' :: (dumpChars x ++ dumpArrTail xs)) ++ (']' :: rest) =
          ',' :: ' ' :: (dumpChars x ++ (dumpArrTail xs ++ (']' :: rest))) := by
        simp
      rw [hnorm, parseArrRest_comma]
      rw [rt_val x f (dumpArrTail xs ++ (']' :: rest)) hx (noDigit_arrTail xs rest)]
      simp [rt_arr xs f rest hxs]
termination_by xs _ _ _ => sizeOf xs

theorem rt_member : ∀ (kv : String × JVal) (fuel : Nat) (rest : List Char),
    (dumpStrChars kv.1).length + 2 + (dumpChars kv.2).length < fuel → noDigit rest = true →
    parseMember fuel (dumpStrChars kv.1 ++ (':' :: ' ' :: (dumpChars kv.2 ++ rest))) =
      some (kv, rest)
  | (k, v), fuel, rest, hf, hr => by
    cases fuel with
    | zero => omega
    | succ f =>
      have hf2 : (dumpStrChars k).length + 2 + (dumpChars v).length < f + 1 := hf
      have hv : (dumpChars v).length < f := by omega
      show parseMember (f + 1)
          ((quoteC :: (escape k.data ++ [quoteC])) ++ (':' :: ' ' :: (dumpChars v ++ rest))) =
        some ((k, v), rest)
      rw [List.cons_append, List.append_assoc, List.singleton_append]
      rw [parseMember_quote, parseStrBody_escape]
      have key := rt_val v f rest hv hr
      simp [key, strMk_data]
termination_by kv _ _ _ _ => sizeOf kv

theorem rt_obj : ∀ (kvs : List (String × JVal)) (fuel : Nat) (rest : List Char),
    (dumpObjTail kvs).length + 1 ≤ fuel →
    parseObjRest fuel (dumpObjTail kvs ++ (rbraceC :: rest)) = some (kvs, rest)
  | [], fuel, rest, hf => by
    cases fuel with
    | zero => omega
    | succ f => exact parseObjRest_rb f rest
  | (k, v) :: kvs, fuel, rest, hf => by
    cases fuel with
    | zero => omega
    | succ f =>
      have hmem : (dumpStrChars k).length + 2 + (dumpChars v).length < f := by
        simp [dumpObjTail] at hf
        omega
      have hkvs : (dumpObjTail kvs).length + 1 ≤ f := by
        simp [dumpObjTail] at hf
        omega
      show parseObjRest (f + 1)
          ((',' :: ' ' :: (dumpStrChars k ++ (':' :: ' ' :: (dumpChars v ++ dumpObjTail kvs)))) ++
            (rbraceC :: rest)) =
        some ((k, v) :: kvs, rest)
      have hnorm : (',' :: ' ' :: (dumpStrChars k ++
            (':' :: ' ' :: (dumpChars v ++ dumpObjTail kvs)))) ++ (rbraceC :: rest) =
          ',' :: ' ' :: (dumpStrChars k ++
            (':' :: ' ' :: (dumpChars v ++ (dumpObjTail kvs ++ (rbraceC :: rest))))) := by
        simp
      rw [hnorm, parseObjRest_comma]
      have key := rt_member (k, v) f (dumpObjTail kvs ++ (rbraceC :: rest)) hmem
        (noDigit_objTail kvs rest)
      rw [key]
      simp [rt_obj kvs f rest hkvs]
termination_by kvs _ _ _ => sizeOf kvs
end

/-- The serialize/deserialize round trip is the identity: `json.loads` of
`json.dumps(v)` recovers `v` exactly. -/
theorem loads_dumps (v : JVal) : loads (dumps v) = some v := by
  unfold loads dumps
  have hdata : (String.mk (dumpChars v)).data = dumpChars v := rfl
  rw [hdata]
  have key := rt_val v ((dumpChars v).length + 1) [] (by omega) rfl
  rw [List.append_nil] at key
  rw [key]

/-- `dumps` is injective (immediate from the round trip). -/
theorem dumps_injective (v w : JVal) (h : dumps v = dumps w) : v = w := by
  have hv := loads_dumps v
  have hw := loads_dumps w
  rw [h, hw] at hv
  exact ((Option.some.injEq _ _).mp hv).symm

/-! Association-list lemmas for the Python-dict model, and the
insertion-sort lemmas behind the cache-key order-independence. -/

theorem plookup_dictSet_same (l : Params) (k : String) (v : JVal) :
    plookup k (dictSet l k v) = some v := by
  induction l with
  | nil => simp [dictSet, plookup]
  | cons kv rest ih =>
    obtain ⟨k2, v2⟩ := kv
    by_cases h : k2 = k
    · simp [dictSet, h, plookup]
    · simp [dictSet, h, plookup, ih]

theorem plookup_dictSet_ne (l : Params) (k k2 : String) (v : JVal) (h : ¬ k2 = k) :
    plookup k2 (dictSet l k v) = plookup k2 l := by
  have h2 : ¬ k = k2 := fun he => h he.symm
  induction l with
  | nil => simp [dictSet, plookup, h2]
  | cons kv rest ih =>
    obtain ⟨k3, v3⟩ := kv
    by_cases h3 : k3 = k
    · subst h3
      simp [dictSet, plookup, h2]
    · simp [dictSet, h3, plookup, ih]

theorem dictSet_same_of_lookup (l : Params) (k : String) (v : JVal)
    (h : plookup k l = some v) : dictSet l k v = l := by
  induction l with
  | nil => simp [plookup] at h
  | cons kv rest ih =>
    obtain ⟨k2, v2⟩ := kv
    by_cases h2 : k2 = k
    · simp [plookup, h2] at h
      simp [dictSet, h2, h]
    · simp [plookup, h2] at h
      simp [dictSet, h2, ih h]

theorem filter_dictSet_key (l : Params) (k : String) (v : JVal) :
    (dictSet l k v).filter (fun kv => !(kv.1 == k)) = l.filter (fun kv => !(kv.1 == k)) := by
  induction l with
  | nil => simp [dictSet]
  | cons kv rest ih =>
    obtain ⟨k2, v2⟩ := kv
    by_cases h : k2 = k
    · simp [dictSet, h, List.filter]
    · have hb : (k2 == k) = false := by simp [h]
      simp [dictSet, h, List.filter, hb, ih]

theorem plookup_eq_none_iff (l : Params) (k : String) :
    plookup k l = none ↔ k ∉ l.map Prod.fst := by
  induction l with
  | nil => simp [plookup]
  | cons kv rest ih =>
    obtain ⟨k2, v2⟩ := kv
    by_cases h : k2 = k
    · simp [plookup, h]
    · have h2 : ¬ k = k2 := fun he => h he.symm
      simp [plookup, h, h2, ih]

theorem keys_dictSet (l : Params) (k : String) (v : JVal) :
    (dictSet l k v).map Prod.fst =
      if (plookup k l).isSome then l.map Prod.fst else l.map Prod.fst ++ [k] := by
  induction l with
  | nil => simp [dictSet, plookup]
  | cons kv rest ih =>
    obtain ⟨k2, v2⟩ := kv
    by_cases h : k2 = k
    · simp [dictSet, h, plookup]
    · simp only [dictSet, if_neg h, plookup, List.map_cons, ih]
      by_cases hp : (plookup k rest).isSome
      · simp [hp, h]
      · simp [hp, h]

theorem nodupKeys_dictSet (l : Params) (k : String) (v : JVal) (h : nodupKeys l) :
    nodupKeys (dictSet l k v) := by
  unfold nodupKeys at h ⊢
  rw [keys_dictSet]
  by_cases hp : (plookup k l).isSome
  · simpa [hp] using h
  · rw [if_neg hp]
    have hk : k ∉ l.map Prod.fst := by
      rw [← plookup_eq_none_iff]
      exact Option.not_isSome_iff_eq_none.mp hp
    simp [List.nodup_append, h, hk]

theorem plookup_mem_iff (l : Params) (k : String) (v : JVal) (h : nodupKeys l) :
    plookup k l = some v ↔ (k, v) ∈ l := by
  induction l with
  | nil => simp [plookup]
  | cons kv rest ih =>
    obtain ⟨k2, v2⟩ := kv
    unfold nodupKeys at h
    simp only [List.map_cons, List.nodup_cons] at h
    by_cases hk : k2 = k
    · subst hk
      have hpl : plookup k2 ((k2, v2) :: rest) = some v2 := by simp [plookup]
      rw [hpl, List.mem_cons]
      constructor
      · intro hv
        left
        injection hv with h2
        rw [h2]
      · intro hv
        rcases hv with hv | hv
        · injection hv with h1 h2
          rw [h2]
        · exact absurd (List.mem_map.mpr ⟨(k2, v), hv, rfl⟩) h.1
    · have hk3 : ¬ ((k, v) = (k2, v2)) := by
        intro he
        injection he with h1 h2
        exact hk h1.symm
      simp [plookup, hk, ih h.2, hk3]

theorem nodupKeys_perm (l1 l2 : Params) (hp : l1.Perm l2) (h : nodupKeys l1) :
    nodupKeys l2 :=
  (List.Perm.nodup_iff (List.Perm.map Prod.fst hp)).mp h

theorem plookup_perm (l1 l2 : Params) (hp : l1.Perm l2) (h : nodupKeys l1) (k : String) :
    plookup k l1 = plookup k l2 := by
  have h2 : nodupKeys l2 := nodupKeys_perm l1 l2 hp h
  cases hv : plookup k l1 with
  | some v =>
    rw [plookup_mem_iff l1 k v h] at hv
    exact ((plookup_mem_iff l2 k v h2).mpr (hp.mem_iff.mp hv)).symm
  | none =>
    rw [plookup_eq_none_iff] at hv
    have : k ∉ l2.map Prod.fst := fun hm =>
      hv ((List.Perm.map Prod.fst hp).mem_iff.mpr hm)
    exact ((plookup_eq_none_iff l2 k).mpr this).symm

/-- The pairwise key order that `sortPairs` establishes. -/
theorem insertPair_perm (p : String × JVal) (l : List (String × JVal)) :
    (insertPair p l).Perm (p :: l) := by
  induction l with
  | nil => simp [insertPair]
  | cons q qs ih =>
    by_cases h : p.1 ≤ q.1
    · simp [insertPair, h]
    · simp only [insertPair, if_neg h]
      exact (ih.cons q).trans (List.Perm.swap p q qs)

theorem sortPairs_perm (l : List (String × JVal)) : (sortPairs l).Perm l := by
  induction l with
  | nil => simp [sortPairs]
  | cons p ps ih =>
    exact (insertPair_perm p (sortPairs ps)).trans (ih.cons p)

theorem insertPair_sorted (p : String × JVal) (l : List (String × JVal))
    (h : l.Pairwise (fun a b => a.1 ≤ b.1)) :
    (insertPair p l).Pairwise (fun a b => a.1 ≤ b.1) := by
  induction l with
  | nil => simp [insertPair]
  | cons q qs ih =>
    rw [List.pairwise_cons] at h
    by_cases hle : p.1 ≤ q.1
    · rw [insertPair, if_pos hle, List.pairwise_cons]
      refine ⟨?_, List.pairwise_cons.mpr h⟩
      intro r hr
      rcases List.mem_cons.mp hr with hr | hr
      · rw [hr]
        exact hle
      · exact le_trans hle (h.1 r hr)
    · rw [insertPair, if_neg hle, List.pairwise_cons]
      refine ⟨?_, ih h.2⟩
      intro r hr
      cases (insertPair_perm p qs).mem_iff.mp hr with
      | head => exact le_of_not_le hle
      | tail x hm => exact h.1 r hm

theorem sortPairs_sorted (l : List (String × JVal)) :
    (sortPairs l).Pairwise (fun a b => a.1 ≤ b.1) := by
  induction l with
  | nil => simp [sortPairs]
  | cons p ps ih => exact insertPair_sorted p (sortPairs ps) ih

theorem eq_of_perm_of_keyLT : ∀ l1 l2 : List (String × JVal), l1.Perm l2 →
    l1.Pairwise (fun a b => a.1 < b.1) → l2.Pairwise (fun a b => a.1 < b.1) → l1 = l2
  | [], l2, hp, _, _ => (hp.symm.eq_nil).symm
  | p :: t1, l2, hp, h1, h2 => by
    cases l2 with
    | nil => exact absurd hp.eq_nil (by simp)
    | cons q t2 =>
      rw [List.pairwise_cons] at h1 h2
      have hpq : p = q := by
        have hpm : p ∈ q :: t2 := hp.mem_iff.mp (by simp)
        have hqm : q ∈ p :: t1 := hp.mem_iff.mpr (by simp)
        rcases List.mem_cons.mp hpm with h | h
        · exact h
        · rcases List.mem_cons.mp hqm with h3 | h3
          · exact h3.symm
          · exact absurd (lt_trans (h1.1 q h3) (h2.1 p h)) (lt_irrefl _)
      subst hpq
      rw [eq_of_perm_of_keyLT t1 t2 (hp.cons_inv) h1.2 h2.2]

theorem pairwise_keyLT (l : List (String × JVal))
    (hle : l.Pairwise (fun a b => a.1 ≤ b.1)) (hnd : nodupKeys l) :
    l.Pairwise (fun a b => a.1 < b.1) := by
  have hnd2 : l.Pairwise (fun a b => a.1 ≠ b.1) := List.pairwise_map.mp hnd
  exact (hle.and hnd2).imp (fun h => lt_of_le_of_ne h.1 h.2)

theorem sortPairs_perm_eq (l1 l2 : List (String × JVal)) (hp : l1.Perm l2)
    (hnd : nodupKeys l1) : sortPairs l1 = sortPairs l2 := by
  have hperm : (sortPairs l1).Perm (sortPairs l2) :=
    ((sortPairs_perm l1).trans hp).trans (sortPairs_perm l2).symm
  have hnd1 : nodupKeys (sortPairs l1) := nodupKeys_perm l1 _ (sortPairs_perm l1).symm hnd
  have hnd2 : nodupKeys (sortPairs l2) :=
    nodupKeys_perm (sortPairs l1) _ hperm hnd1
  exact eq_of_perm_of_keyLT _ _ hperm
    (pairwise_keyLT _ (sortPairs_sorted l1) hnd1)
    (pairwise_keyLT _ (sortPairs_sorted l2) hnd2)

theorem sortVals_eq_map (l : List (String × JVal)) :
    sortVals l = l.map (fun kv => (kv.1, sortKeysDeep kv.2)) := by
  induction l with
  | nil => rfl
  | cons kv rest ih => simp [sortVals, ih]

theorem keys_sortVals (l : List (String × JVal)) :
    (sortVals l).map Prod.fst = l.map Prod.fst := by
  rw [sortVals_eq_map, List.map_map]
  rfl

theorem nodupKeys_sortVals (l : Params) (h : nodupKeys l) : nodupKeys (sortVals l) := by
  unfold nodupKeys at h ⊢
  rw [keys_sortVals]
  exact h

theorem plookup_sortVals (l : Params) (k : String) :
    plookup k (sortVals l) = (plookup k l).map sortKeysDeep := by
  induction l with
  | nil => simp [sortVals, plookup]
  | cons kv rest ih =>
    obtain ⟨k2, v2⟩ := kv
    by_cases h : k2 = k
    · simp [sortVals, plookup, h]
    · simp [sortVals, plookup, h, ih]

/-! Generic lemmas about the category catalog lookup. -/

theorem categoryOf_mem (l : List (String × String)) (path : String) :
    categoryOf l path = "default" ∨ ∃ pc ∈ l, categoryOf l path = pc.2 := by
  induction l with
  | nil => left; rfl
  | cons pc rest ih =>
    obtain ⟨pat, cat⟩ := pc
    by_cases h : isSubLC pat.data path.data = true
    · right
      exact ⟨(pat, cat), by simp, by simp [categoryOf, h]⟩
    · rw [show categoryOf ((pat, cat) :: rest) path = categoryOf rest path by
        simp [categoryOf, h]]
      rcases ih with ih | ⟨pc2, hm, he⟩
      · left; exact ih
      · right; exact ⟨pc2, by simp [hm], he⟩

theorem categoryOf_no_match (l : List (String × String)) (path : String)
    (h : ∀ pc ∈ l, isSubLC pc.1.data path.data = false) :
    categoryOf l path = "default" := by
  induction l with
  | nil => rfl
  | cons pc rest ih =>
    obtain ⟨pat, cat⟩ := pc
    have hh := h (pat, cat) (by simp)
    simp only at hh
    rw [show categoryOf ((pat, cat) :: rest) path = categoryOf rest path by
      simp [categoryOf, hh]]
    exact ih (fun pc2 hm => h pc2 (by simp [hm]))

theorem categoryOf_first_match : ∀ (l : List (String × String)) (path : String) (i : Nat)
    (h : i < l.length),
    isSubLC (l.get ⟨i, h⟩).1.data path.data = true →
    (∀ pc ∈ l.take i, isSubLC pc.1.data path.data = false) →
    categoryOf l path = (l.get ⟨i, h⟩).2
  | [], _, i, h, _, _ => absurd h (by simp)
  | (pat, cat) :: rest, path, 0, h, hm, _ => by
    simp only [List.get] at hm ⊢
    simp [categoryOf, hm]
  | (pat, cat) :: rest, path, i + 1, h, hm, hprev => by
    have h0 : isSubLC pat.data path.data = false := by
      have := hprev (pat, cat) (by simp [List.take])
      simpa using this
    simp only [List.get] at hm ⊢
    rw [show categoryOf ((pat, cat) :: rest) path = categoryOf rest path by
      simp [categoryOf, h0]]
    exact categoryOf_first_match rest path i (by simpa using h) hm
      (fun pc hpc => hprev pc (by simp [List.take, hpc]))

/-- C8: the rate-limit category of every endpoint path is one of
`auth`, `device`, `policy`, `default`; it is computed by matching the
path against the ordered catalog with the first matching pattern
winning and no match falling back to `default`; in particular a path
containing `/ers/config/networkdevice` (and no earlier pattern)
resolves to `device`, and an unmatched path resolves to `default`. -/
theorem endpoint_category_spec :
    (∀ path : String,
      get_endpoint_category path ∈ (["auth", "device", "policy", "default"] : List String)) ∧
    (∀ path : String, (∀ pc ∈ ENDPOINT_CATEGORIES, isSubLC pc.1.data path.data = false) →
      get_endpoint_category path = "default") ∧
    (∀ path : String, ∀ i : Nat, ∀ h : i < ENDPOINT_CATEGORIES.length,
      isSubLC (ENDPOINT_CATEGORIES.get ⟨i, h⟩).1.data path.data = true →
      (∀ pc ∈ ENDPOINT_CATEGORIES.take i, isSubLC pc.1.data path.data = false) →
      get_endpoint_category path = (ENDPOINT_CATEGORIES.get ⟨i, h⟩).2) ∧
    get_endpoint_category "/ers/config/networkdevice/123" = "device" ∧
    get_endpoint_category "/api/v2/unknown" = "default" := by
  refine ⟨?_, ?_, ?_, ?_, ?_⟩
  · intro path
    rcases categoryOf_mem ENDPOINT_CATEGORIES path with h | ⟨pc, hm, he⟩
    · rw [get_endpoint_category, h]
      simp
    · rw [get_endpoint_category, he]
      have : ∀ pc2 ∈ ENDPOINT_CATEGORIES,
          pc2.2 ∈ (["auth", "device", "policy", "default"] : List String) := by decide
      exact this pc hm
  · intro path h
    exact categoryOf_no_match ENDPOINT_CATEGORIES path h
  · intro path i h hm hprev
    exact categoryOf_first_match ENDPOINT_CATEGORIES path i h hm hprev
  · decide
  · decide

/-- C8 witness: the first-match clause applied at the catalog's
`networkdevice` entry (index 5), and the no-match clause at an unmatched
path. -/
theorem endpoint_category_spec_witness :
    get_endpoint_category "/ers/config/networkdevice" = "device" ∧
    get_endpoint_category "/admin/status" = "default" :=
  ⟨endpoint_category_spec.2.2.1 "/ers/config/networkdevice" 5 (by decide) (by decide)
     (by decide),
   endpoint_category_spec.2.1 "/admin/status" (by decide)⟩

/-- C1: with every attempt rate-limited, the retry controller sleeps
`min(MIN_BACKOFF * 2^attempt, MAX_BACKOFF)` between attempts — i.e.
0.5 s, 1 s, 2 s — and raises a terminal rate-limit error on the fourth
consecutive `RateLimited`; if the fourth attempt succeeds instead, the
body is returned after exactly those 3 backoff sleeps. -/
theorem retry_rate_limit_behavior (att : Nat → Outcome) (b : JVal) :
    ((∀ i, i < 4 → ∃ m, att i = Outcome.rateLimited m) →
      ∃ m, make_rate_limited_request att =
        (Except.error (Err.rateLimit m), [1/2, 1, 2])) ∧
    ((∀ i, i < 3 → ∃ m, att i = Outcome.rateLimited m) → att 3 = Outcome.success b →
      make_rate_limited_request att = (Except.ok b, [1/2, 1, 2])) ∧
    ([min (MIN_BACKOFF_TIME * 2 ^ 0) MAX_BACKOFF_TIME,
      min (MIN_BACKOFF_TIME * 2 ^ 1) MAX_BACKOFF_TIME,
      min (MIN_BACKOFF_TIME * 2 ^ 2) MAX_BACKOFF_TIME] : List ℚ) = [1/2, 1, 2] := by
  have hb0 : min (MIN_BACKOFF_TIME * 2 ^ 0) MAX_BACKOFF_TIME = (1 : ℚ) / 2 := by
    rw [min_eq_left (by norm_num [MIN_BACKOFF_TIME, MAX_BACKOFF_TIME])]
    norm_num [MIN_BACKOFF_TIME]
  have hb1 : min (MIN_BACKOFF_TIME * 2 ^ 1) MAX_BACKOFF_TIME = (1 : ℚ) := by
    rw [min_eq_left (by norm_num [MIN_BACKOFF_TIME, MAX_BACKOFF_TIME])]
    norm_num [MIN_BACKOFF_TIME]
  have hb2 : min (MIN_BACKOFF_TIME * 2 ^ 2) MAX_BACKOFF_TIME = (2 : ℚ) := by
    rw [min_eq_left (by norm_num [MIN_BACKOFF_TIME, MAX_BACKOFF_TIME])]
    norm_num [MIN_BACKOFF_TIME]
  refine ⟨?_, ?_, by rw [hb0, hb1, hb2]⟩
  · intro h
    obtain ⟨m0, h0⟩ := h 0 (by norm_num)
    obtain ⟨m1, h1⟩ := h 1 (by norm_num)
    obtain ⟨m2, h2⟩ := h 2 (by norm_num)
    obtain ⟨m3, h3⟩ := h 3 (by norm_num)
    refine ⟨m3, ?_⟩
    simp [make_rate_limited_request, retryLoop, MAX_RETRIES, h0, h1, h2, h3, hb0, hb1, hb2]
    norm_num [MIN_BACKOFF_TIME, MAX_BACKOFF_TIME, min_def]
  · intro h h3
    obtain ⟨m0, h0⟩ := h 0 (by norm_num)
    obtain ⟨m1, h1⟩ := h 1 (by norm_num)
    obtain ⟨m2, h2⟩ := h 2 (by norm_num)
    simp [make_rate_limited_request, retryLoop, MAX_RETRIES, h0, h1, h2, h3, hb0, hb1, hb2]
    norm_num [MIN_BACKOFF_TIME, MAX_BACKOFF_TIME, min_def]

/-- C1 witness: both halves at concrete attempt outcomes. -/
theorem retry_rate_limit_behavior_witness :
    (∃ m, make_rate_limited_request (fun _ => Outcome.rateLimited "busy") =
      (Except.error (Err.rateLimit m), [1/2, 1, 2])) ∧
    make_rate_limited_request
        (fun i => if i < 3 then Outcome.rateLimited "busy" else Outcome.success JVal.null) =
      (Except.ok JVal.null, ([1/2, 1, 2] : List ℚ)) :=
  ⟨(retry_rate_limit_behavior (fun _ => Outcome.rateLimited "busy") JVal.null).1
      (fun i _ => ⟨"busy", rfl⟩),
   (retry_rate_limit_behavior _ JVal.null).2.1
      (fun i hi => ⟨"busy", by simp [hi]⟩) (by norm_num)⟩

/-- C4 counterexample: a caller-supplied page size of 500 is forwarded to
the backend request unchanged — the sole page request of this fetch
carries `size = 500`, outside `[1, 100]`. -/
theorem page_size_counterexample :
    (getAllPages (fun _ => Except.ok (JVal.obj [])) [] 0 300 "https://ise"
        "/ers/config/endpoint" [("size", JVal.num 500)] false).2.2 =
      [[("size", JVal.num 500), ("page", JVal.num 1)]] ∧
    ¬ ((500 : Int) ≤ 100) := by
  constructor
  · rfl
  · decide

/-- C4 (amended): `_get_all_pages` defaults a missing `size` to
`MAX_PAGE_SIZE = 100` and forwards any caller-supplied `size`
unchanged — there is no clamping to `[1, 100]`. -/
theorem page_size_default_and_passthrough (params : Params) :
    ((plookup "size" params = none) →
      plookup "size" (preparePageParams params) = some (JVal.num MAX_PAGE_SIZE)) ∧
    (∀ v, plookup "size" params = some v →
      plookup "size" (preparePageParams params) = some v) := by
  constructor
  · intro h
    unfold preparePageParams
    rw [if_pos (by simp [h])]
    rw [plookup_dictSet_ne _ _ _ _ (by decide)]
    exact plookup_dictSet_same params "size" (JVal.num MAX_PAGE_SIZE)
  · intro v h
    unfold preparePageParams
    rw [if_neg (by simp [h])]
    rw [plookup_dictSet_ne _ _ _ _ (by decide)]
    exact h

/-- C4 amended witness: both branches at concrete parameter dicts. -/
theorem page_size_default_and_passthrough_witness :
    plookup "size" (preparePageParams []) = some (JVal.num MAX_PAGE_SIZE) ∧
    plookup "size" (preparePageParams [("size", JVal.num 7)]) = some (JVal.num 7) :=
  ⟨(page_size_default_and_passthrough []).1 rfl,
   (page_size_default_and_passthrough [("size", JVal.num 7)]).2 (JVal.num 7) rfl⟩

/-- C7: writing a JSON body under a key and reading it back immediately
returns the same body (serialize-on-set / deserialize-on-get is the
identity), once the TTL has elapsed the key reads as absent, and an
expired entry is never returned. -/
theorem cache_roundtrip_and_expiry (c : CacheState) (k : String) (v : JVal) (now ttl : ℚ) :
    (0 < ttl →
      (cacheGet (cacheSet c k (dumps v) now ttl) now k).bind (fun s => loads s) = some v) ∧
    (∀ t, now + ttl ≤ t →
      cacheGet (cacheSet c k (dumps v) now ttl) t k = none) ∧
    (∀ s, cacheGet c now k = some s →
      ∃ e ∈ c, e.key = k ∧ e.body = s ∧ now < e.insertedAt + e.ttl) := by
  refine ⟨?_, ?_, ?_⟩
  · intro h
    have hget : cacheGet (cacheSet c k (dumps v) now ttl) now k = some (dumps v) := by
      simp [cacheGet, cacheSet, cacheFind, List.find?]
      linarith
    rw [hget]
    simp [loads_dumps]
  · intro t ht
    simp [cacheGet, cacheSet, cacheFind, List.find?]
    linarith
  · intro s hs
    unfold cacheGet at hs
    cases hf : cacheFind c k with
    | none =>
      rw [hf] at hs
      simp at hs
    | some e =>
      rw [hf] at hs
      unfold cacheFind at hf
      by_cases hlive : now < e.insertedAt + e.ttl
      · have hbody : e.body = s := by simpa [hlive] using hs
        have hkey : e.key = k := by simpa using List.find?_some hf
        exact ⟨e, List.mem_of_find?_eq_some hf, hkey, hbody, hlive⟩
      · simp [hlive] at hs

/-- C7 witness: round trip and expiry at a concrete key, body and TTL. -/
theorem cache_roundtrip_and_expiry_witness :
    (cacheGet (cacheSet [] "k" (dumps (JVal.obj [("a", JVal.num 1)])) 0 300) 0 "k").bind
        (fun s => loads s) = some (JVal.obj [("a", JVal.num 1)]) ∧
    cacheGet (cacheSet [] "k" (dumps (JVal.obj [("a", JVal.num 1)])) 0 300) 300 "k" = none :=
  ⟨(cache_roundtrip_and_expiry [] "k" (JVal.obj [("a", JVal.num 1)]) 0 300).1 (by norm_num),
   (cache_roundtrip_and_expiry [] "k" (JVal.obj [("a", JVal.num 1)]) 0 300).2.1 300
     (by norm_num)⟩

/-! Cache-frame lemmas for fetches with caching disabled. -/

theorem getSingle_nocache (bk : Params → Except Err JVal) (now ttl : ℚ) (url : String)
    (ps : Params) (c : CacheState) :
    getSingle bk c now ttl url ps false = ((getSingle bk [] now ttl url ps false).1, c) := by
  cases h : bk ps <;> simp [getSingle, h]

theorem pageLoop_nocache (bk : Params → Except Err JVal) (now ttl : ℚ) (url : String)
    (rp : Params) : ∀ (ns : List Nat) (acc : JVal) (c1 c2 : CacheState) (tr : List Params),
    pageLoop bk now ttl url rp false ns acc c1 tr =
      ((pageLoop bk now ttl url rp false ns acc c2 tr).1, c1,
       (pageLoop bk now ttl url rp false ns acc c2 tr).2.2)
  | [], acc, c1, c2, tr => rfl
  | n :: ns, acc, c1, c2, tr => by
    have e1 := getSingle_nocache bk now ttl url (dictSet rp "page" (JVal.num (n : Int))) c1
    have e2 := getSingle_nocache bk now ttl url (dictSet rp "page" (JVal.num (n : Int))) c2
    simp only [pageLoop, e1, e2]
    repeat' split
    all_goals first
      | rfl
      | exact pageLoop_nocache bk now ttl url rp ns _ c1 c2 _

theorem getAllPages_nocache (bk : Params → Except Err JVal) (now ttl : ℚ)
    (iseBase apiPath : String) (params : Params) (c1 c2 : CacheState) :
    getAllPages bk c1 now ttl iseBase apiPath params false =
      ((getAllPages bk c2 now ttl iseBase apiPath params false).1, c1,
       (getAllPages bk c2 now ttl iseBase apiPath params false).2.2) := by
  have e1 := getSingle_nocache bk now ttl (iseBase ++ apiPath) (preparePageParams params) c1
  have e2 := getSingle_nocache bk now ttl (iseBase ++ apiPath) (preparePageParams params) c2
  simp only [getAllPages, e1, e2]
  repeat' split
  all_goals first
    | rfl
    | (simp_all; done)
    | (rw [pageLoop_nocache bk now ttl (iseBase ++ apiPath) (preparePageParams params)
        _ _ c1 c2 _])

/-- C10: a fetch invoked with `use_cache = False` — single-page or
paginated — neither reads from nor writes to the cache: the cache after
the call is the cache before it, and the result and the request trace do
not depend on the cache contents at all. -/
theorem no_cache_frame (bk : Params → Except Err JVal) (now ttl : ℚ)
    (iseBase apiPath url : String) (ps params : Params) (c c2 : CacheState) :
    ((getSingle bk c now ttl url ps false).2 = c ∧
     (getSingle bk c now ttl url ps false).1 = (getSingle bk c2 now ttl url ps false).1) ∧
    ((getAllPages bk c now ttl iseBase apiPath params false).2.1 = c ∧
     (getAllPages bk c now ttl iseBase apiPath params false).1 =
       (getAllPages bk c2 now ttl iseBase apiPath params false).1 ∧
     (getAllPages bk c now ttl iseBase apiPath params false).2.2 =
       (getAllPages bk c2 now ttl iseBase apiPath params false).2.2) := by
  refine ⟨⟨?_, ?_⟩, ?_, ?_, ?_⟩
  · rw [getSingle_nocache]
  · rw [getSingle_nocache bk now ttl url ps c, getSingle_nocache bk now ttl url ps c2]
  · rw [getAllPages_nocache bk now ttl iseBase apiPath params c c2]
  · rw [getAllPages_nocache bk now ttl iseBase apiPath params c c2]
  · rw [getAllPages_nocache bk now ttl iseBase apiPath params c c2]

/-- C5 counterexample: a page-1 response whose `SearchResult` value is a
number lacks the recognized pagination shape (it has no `total` field),
yet `_get_all_pages` does not return it verbatim — the membership test
`'total' not in first_page_response['SearchResult']` raises `TypeError`
('int' is not a container), which propagates to the caller. -/
theorem non_paginated_typeerror_counterexample :
    (getAllPages (fun _ => Except.ok (JVal.obj [("SearchResult", JVal.num 5)])) [] 0 300
        "https://ise" "/api/v1/x" [] false).1 = Except.error Err.typeErr := by
  rfl

/-- C5 (amended): when the page-1 response either reports
`'SearchResult' not in response` as false, or its `SearchResult` value
supports the membership test and reports no `total` key, the paginated
fetch returns the page-1 response unmodified, issues no second page
request (the trace is exactly the one page-1 request), and performs no
cache activity beyond the page-1 fetch itself — in particular no
paginated-cache entry is written. -/
theorem non_paginated_verbatim (bk : Params → Except Err JVal) (now ttl : ℚ)
    (iseBase apiPath : String) (params : Params) (c : CacheState) (useCache : Bool)
    (first : JVal)
    (hmiss : useCache = true →
      cacheGet c now (paginatedCacheKey (iseBase ++ apiPath) (preparePageParams params)) = none)
    (hfirst : (getSingle bk c now ttl (iseBase ++ apiPath) (preparePageParams params)
      useCache).1 = Except.ok first)
    (hshape : pyIn "SearchResult" first = Except.ok false ∨
      (pyIn "SearchResult" first = Except.ok true ∧
        (pySub first "SearchResult").bind (pyIn "total") = Except.ok false)) :
    getAllPages bk c now ttl iseBase apiPath params useCache =
      (Except.ok first,
       (getSingle bk c now ttl (iseBase ++ apiPath) (preparePageParams params) useCache).2,
       [preparePageParams params]) := by
  have hlk : (if useCache then
      cacheGet c now (paginatedCacheKey (iseBase ++ apiPath) (preparePageParams params))
    else none) = none := by
    cases useCache
    · rfl
    · exact hmiss rfl
  rcases hshape with hA | ⟨hB1, hB2⟩
  · simp only [getAllPages, hlk, hfirst, hA]
  · cases hsub : pySub first "SearchResult" with
    | error e =>
      rw [hsub] at hB2
      simp [Except.bind] at hB2
    | ok sr =>
      rw [hsub] at hB2
      simp only [Except.bind] at hB2
      simp only [getAllPages, hlk, hfirst, hB1, hsub, hB2]

/-- C5 amended witness: a shape-less page-1 body at concrete inputs. -/
theorem non_paginated_verbatim_witness :
    getAllPages (fun _ => Except.ok (JVal.obj [("foo", JVal.num 1)])) [] 0 300
        "https://ise" "/api/v1/x" [] false =
      (Except.ok (JVal.obj [("foo", JVal.num 1)]),
       (getSingle (fun _ => Except.ok (JVal.obj [("foo", JVal.num 1)])) [] 0 300
         ("https://ise" ++ "/api/v1/x") (preparePageParams []) false).2,
       [preparePageParams []]) :=
  non_paginated_verbatim (fun _ => Except.ok (JVal.obj [("foo", JVal.num 1)])) 0 300
    "https://ise" "/api/v1/x" [] [] false (JVal.obj [("foo", JVal.num 1)])
    (fun h => nomatch h) rfl (Or.inl rfl)

/-! Cache-key lemmas: order-independence and the paginated key class. -/

theorem isPrefLC_iff : ∀ (a b : List Char), isPrefLC a b = true ↔ ∃ t, b = a ++ t
  | [], b => by simp [isPrefLC]
  | c :: a2, [] => by simp [isPrefLC]
  | c :: a2, d :: b2 => by
    simp only [isPrefLC, Bool.and_eq_true, decide_eq_true_eq, isPrefLC_iff a2 b2]
    constructor
    · rintro ⟨hc, t, ht⟩
      exact ⟨t, by simp [hc, ht]⟩
    · rintro ⟨t, ht⟩
      injection ht with h1 h2
      exact ⟨h1.symm, t, h2⟩

theorem get_cache_key_perm (url : String) (p1 p2 : Params) (hp : p1.Perm p2)
    (hnd : nodupKeys p1) : get_cache_key url p1 = get_cache_key url p2 := by
  by_cases h1 : p1 = []
  · subst h1
    rw [hp.nil_eq]
  · have h2 : p2 ≠ [] := by
      intro he
      subst he
      exact h1 hp.symm.nil_eq.symm
    have he1 : p1.isEmpty = false := by simpa [List.isEmpty_iff]
    have he2 : p2.isEmpty = false := by simpa [List.isEmpty_iff]
    unfold get_cache_key
    rw [he1, he2]
    simp only [Bool.false_eq_true, if_false]
    unfold dumpsSorted
    have hkey : sortPairs (sortVals p1) = sortPairs (sortVals p2) := by
      apply sortPairs_perm_eq
      · rw [sortVals_eq_map, sortVals_eq_map]
        exact hp.map _
      · exact nodupKeys_sortVals p1 hnd
    show url ++ ":" ++ String.mk (dumpChars (sortKeysDeep (JVal.obj p1))) =
      url ++ ":" ++ String.mk (dumpChars (sortKeysDeep (JVal.obj p2)))
    rw [show sortKeysDeep (JVal.obj p1) = JVal.obj (sortPairs (sortVals p1)) from rfl,
      show sortKeysDeep (JVal.obj p2) = JVal.obj (sortPairs (sortVals p2)) from rfl, hkey]

theorem paginatedCacheKey_page_independent (url : String) (p : Params) (v1 v2 : JVal) :
    paginatedCacheKey url (dictSet p "page" v1) = paginatedCacheKey url (dictSet p "page" v2) := by
  unfold paginatedCacheKey
  rw [filter_dictSet_key, filter_dictSet_key]

theorem paginated_key_ne_single (url1 url2 : String) (p1 p2 : Params)
    (h : isPrefLC ("paginated" : String).data url2.data = false) :
    ¬ paginatedCacheKey url1 p1 = get_cache_key url2 p2 := by
  intro heq
  have hd : ("paginated:" : String).data ++
        (get_cache_key url1 (p1.filter (fun kv => !(kv.1 == "page")))).data =
      url2.data ++ (':' ::
        (if p2.isEmpty then String.mk [lbraceC, rbraceC] else dumpsSorted (JVal.obj p2)).data) := by
    have h0 := congrArg String.data heq
    rw [show paginatedCacheKey url1 p1 =
        "paginated:" ++ get_cache_key url1 (p1.filter (fun kv => !(kv.1 == "page"))) from rfl,
      show get_cache_key url2 p2 = url2 ++ ":" ++
        (if p2.isEmpty then String.mk [lbraceC, rbraceC] else dumpsSorted (JVal.obj p2))
        from rfl] at h0
    rw [String.data_append, String.data_append, String.data_append] at h0
    rw [List.append_assoc, (by decide : (":" : String).data = [':']),
      List.singleton_append] at h0
    exact h0
  set A := (get_cache_key url1 (p1.filter (fun kv => !(kv.1 == "page")))).data
  set B := (if p2.isEmpty then String.mk [lbraceC, rbraceC] else dumpsSorted (JVal.obj p2)).data
  set U := url2.data
  have hPQ : ("paginated" : String).data ++ [':'] = ("paginated:" : String).data := by decide
  have h1 : ("paginated:" : String).data <+: (("paginated:" : String).data ++ A) := ⟨A, rfl⟩
  have h2 : U <+: (("paginated:" : String).data ++ A) := ⟨':' :: B, hd.symm⟩
  have hprefQ : isPrefLC ("paginated" : String).data U = true := by
    rcases ( List.prefix_or_prefix_of_prefix h1 h2) with hc | hc
    · obtain ⟨r, hr⟩ := hc
      rw [isPrefLC_iff]
      exact ⟨[':'] ++ r, by rw [← hr, ← hPQ, List.append_assoc]⟩
    · obtain ⟨r, hr⟩ := hc
      cases r with
      | nil =>
        rw [List.append_nil] at hr
        rw [isPrefLC_iff]
        exact ⟨[':'], by rw [hr, hPQ]⟩
      | cons c r2 =>
        have hcancel : (c :: r2) ++ A = ':' :: B := by
          have hstep : U ++ ((c :: r2) ++ A) = U ++ (':' :: B) := by
            rw [← List.append_assoc, hr]
            exact hd
          exact List.append_cancel_left hstep
        have hc2 : c = ':' := by
          injection hcancel
        subst hc2
        have hU : U ++ (':' :: r2) = ("paginated" : String).data ++ [':'] := by
          rw [hr, hPQ]
        have hlenU : U.length + (1 + r2.length) = 10 := by
          have := congrArg List.length hU
          simp at this
          omega
        have hlen9 : ("paginated" : String).data.length = 9 := by decide
        rcases Nat.lt_or_ge U.length ("paginated" : String).data.length with hlt | hge
        · exfalso
          have hdrop : (U ++ (':' :: r2)).drop U.length =
              (("paginated" : String).data ++ [':']).drop U.length := by rw [hU]
          rw [List.drop_left] at hdrop
          rw [List.drop_append_of_le_length (le_of_lt hlt)] at hdrop
          cases hQd : ("paginated" : String).data.drop U.length with
          | nil =>
            have := congrArg List.length hQd
            simp at this
            omega
          | cons q qrest =>
            rw [hQd] at hdrop
            have hq : q = ':' := by
              have : ':' :: r2 = q :: (qrest ++ [':']) := by simpa using hdrop
              injection this with hh
              exact hh.symm
            subst hq
            have hmem : ':' ∈ ("paginated" : String).data :=
              List.drop_subset U.length _ (by rw [hQd]; exact List.mem_cons_self _ _)
            exact absurd hmem (by decide)
        · rw [hlen9] at hge
          have hr2 : r2 = [] := by
            apply List.length_eq_zero.mp
            omega
          subst hr2
          have hUQ : U = ("paginated" : String).data := by
            have htake := congrArg (List.take U.length) hU
            rw [List.take_left] at htake
            have hUlen : U.length = 9 := by omega
            rw [htake, hUlen, ← hlen9, List.take_left]
          rw [isPrefLC_iff]
          exact ⟨[], by simp [hUQ]⟩
  rw [hprefQ] at h
  exact absurd h (by decide)

/-- C6: the cache key is the URL plus the key-sorted JSON serialization of
the parameter map, so maps equal as maps (same bindings, any insertion
order) produce the identical key; the paginated key is `paginated:`
prefixed to the key of the parameters without `page`, hence independent
of the page number and distinct from every single-page key (whose URL
does not itself start with "paginated"). -/
theorem cache_key_spec :
    (∀ (url : String) (p1 p2 : Params), p1.Perm p2 → nodupKeys p1 →
      get_cache_key url p1 = get_cache_key url p2) ∧
    (∀ (url : String) (p : Params),
      paginatedCacheKey url p =
        "paginated:" ++ get_cache_key url (p.filter (fun kv => !(kv.1 == "page")))) ∧
    (∀ (url : String) (p : Params) (v1 v2 : JVal),
      paginatedCacheKey url (dictSet p "page" v1) =
        paginatedCacheKey url (dictSet p "page" v2)) ∧
    (∀ (url1 url2 : String) (p1 p2 : Params),
      isPrefLC ("paginated" : String).data url2.data = false →
      ¬ paginatedCacheKey url1 p1 = get_cache_key url2 p2) :=
  ⟨get_cache_key_perm, fun _ _ => rfl, paginatedCacheKey_page_independent,
   paginated_key_ne_single⟩

/-- C6 witness: order-independence, page-independence and paginated/plain
distinctness at concrete inputs. -/
theorem cache_key_spec_witness :
    get_cache_key "https://ise/x" [("b", JVal.num 2), ("a", JVal.num 1)] =
      get_cache_key "https://ise/x" [("a", JVal.num 1), ("b", JVal.num 2)] ∧
    paginatedCacheKey "https://ise/x" (dictSet [("size", JVal.num 100)] "page" (JVal.num 1)) =
      paginatedCacheKey "https://ise/x" (dictSet [("size", JVal.num 100)] "page" (JVal.num 7)) ∧
    ¬ paginatedCacheKey "https://ise/x" [] = get_cache_key "https://ise/y" [] :=
  ⟨cache_key_spec.1 "https://ise/x" _ _ (List.Perm.swap _ _ _)
     (by exact (by decide :
       (([("b", JVal.num 2), ("a", JVal.num 1)] : Params).map Prod.fst).Nodup)),
   cache_key_spec.2.2.1 "https://ise/x" [("size", JVal.num 100)] (JVal.num 1) (JVal.num 7),
   cache_key_spec.2.2.2 "https://ise/x" "https://ise/y" [] [] (by decide)⟩

/-! Paginator evaluation lemmas: well-shaped page documents and the
page-fetch loop. -/

theorem getSingle_nocache_eval (bk : Params → Except Err JVal) (now ttl : ℚ) (url : String)
    (ps : Params) (c : CacheState) (r : Except Err JVal) (h : bk ps = r) :
    getSingle bk c now ttl url ps false = (r, c) := by
  cases r <;> simp [getSingle, h]

theorem pyIn_SR_mkPageDoc (T : Int) (rs : List JVal) :
    pyIn "SearchResult" (mkPageDoc T rs) = Except.ok true := by
  simp [pyIn, mkPageDoc, plookup]

theorem pySub_mkPageDoc (T : Int) (rs : List JVal) :
    pySub (mkPageDoc T rs) "SearchResult" =
      Except.ok (JVal.obj [("total", JVal.num T), ("resources", JVal.arr rs)]) := by
  simp [pySub, mkPageDoc, plookup]

theorem pyIn_total_inner (T : Int) (rs : List JVal) :
    pyIn "total" (JVal.obj [("total", JVal.num T), ("resources", JVal.arr rs)]) =
      Except.ok true := by
  simp [pyIn, plookup]

theorem pySub_total_inner (T : Int) (rs : List JVal) :
    pySub (JVal.obj [("total", JVal.num T), ("resources", JVal.arr rs)]) "total" =
      Except.ok (JVal.num T) := by
  simp [pySub, plookup]

theorem pyGetD_resources_inner (T : Int) (rs : List JVal) :
    pyGetD (JVal.obj [("total", JVal.num T), ("resources", JVal.arr rs)]) "resources"
      (JVal.arr []) = Except.ok (JVal.arr rs) := by
  simp [pyGetD, plookup]

theorem jSet_mkPageDoc (T : Int) (rs L : List JVal) :
    jSet (mkPageDoc T rs) "SearchResult"
        (jSet (JVal.obj [("total", JVal.num T), ("resources", JVal.arr rs)]) "resources"
          (JVal.arr L)) = mkPageDoc T L := by
  simp [jSet, mkPageDoc, dictSet]

theorem pageLoop_ok (bk : Params → Except Err JVal) (now ttl : ℚ) (url : String)
    (rp : Params) (T : Int) (rs : Nat → List JVal) :
    ∀ (ns : List Nat) (acc0 : List JVal) (c : CacheState) (tr : List Params),
    (∀ n ∈ ns, bk (dictSet rp "page" (JVal.num (n : Int))) =
      Except.ok (mkPageDoc T (rs n))) →
    pageLoop bk now ttl url rp false ns (JVal.arr acc0) c tr =
      (JVal.arr (acc0 ++ (ns.map rs).flatten), c,
       tr ++ ns.map (fun n => dictSet rp "page" (JVal.num (n : Int))))
  | [], acc0, c, tr, _ => by simp [pageLoop]
  | n :: ns, acc0, c, tr, h => by
    have hbkn := h n (by simp)
    simp only [pageLoop, getSingle_nocache_eval bk now ttl url _ c _ hbkn,
      pySub_mkPageDoc, pyGetD_resources_inner, pyExtend]
    rw [pageLoop_ok bk now ttl url rp T rs ns (acc0 ++ rs n) c
      (tr ++ [dictSet rp "page" (JVal.num (n : Int))]) (fun m hm => h m (by simp [hm]))]
    simp

/-- Ceil-division chunk sizes sum to the total: page `n` holding
`min S (T - (n-1)·S)` records over `⌈T/S⌉` pages yields `T` records. -/
theorem sum_min_chunks : ∀ (T : Nat), 0 < T → ∀ (S : Nat), 0 < S →
    ((List.range' 1 ((T + S - 1) / S)).map (fun n => min S (T - (n - 1) * S))).sum = T := by
  intro T
  induction T using Nat.strong_induction_on with
  | _ T ih =>
    intro hT S hS
    by_cases hTS : T ≤ S
    · have hP : (T + S - 1) / S = 1 := by
        have h1 : T + S - 1 = (T - 1) + S := by omega
        rw [h1, Nat.add_div_right _ hS, Nat.div_eq_of_lt (by omega)]
      rw [hP]
      simp only [List.range', List.map_cons, List.map_nil, List.sum_cons, List.sum_nil]
      omega
    · push_neg at hTS
      have hP : (T + S - 1) / S = (T - S + S - 1) / S + 1 := by
        have h1 : T + S - 1 = ((T - S) + S - 1) + S := by omega
        rw [h1, Nat.add_div_right _ hS]
      have key := ih (T - S) (by omega) (by omega) S hS
      rw [hP, List.range'_succ, List.map_cons, List.sum_cons]
      have hshift : List.range' 2 ((T - S + S - 1) / S) =
          (List.range' 1 ((T - S + S - 1) / S)).map (fun m => 1 + m) := by
        rw [List.map_add_range' 1 1 _]
      rw [hshift, List.map_map]
      have hcong : ∀ m ∈ List.range' 1 ((T - S + S - 1) / S),
          ((fun n => min S (T - (n - 1) * S)) ∘ (fun m => 1 + m)) m =
            (fun n => min S ((T - S) - (n - 1) * S)) m := by
        intro m hm
        have hm1 : 1 ≤ m := (List.mem_range'_1.mp hm).1
        simp only [Function.comp_apply]
        have hms : (1 + m - 1) * S = S + (m - 1) * S := by
          have he : 1 + m - 1 = (m - 1) + 1 := by omega
          rw [he, Nat.succ_mul]
          omega
        rw [hms, ← Nat.sub_sub]
      rw [List.map_congr_left hcong, key]
      have hmin : min S (T - (1 - 1) * S) = S := by
        simp
        omega
      omega

/-- C3: with page 1 reporting `total_records = T`, a page size of `S`, and
every page succeeding with exactly `min(S, remaining)` resources, the
paginator requests exactly pages `1 .. ⌈T/S⌉` in increasing order (no
page twice, none beyond) and the merged resource list has length `T`. -/
theorem paginator_full_merge (bk : Params → Except Err JVal) (now ttl : ℚ)
    (iseBase apiPath : String) (p0 : Params) (c : CacheState)
    (T S : Nat) (rs : Nat → List JVal) (hT : 0 < T) (hS : 0 < S)
    (hsize : plookup "size" (preparePageParams p0) = some (JVal.num (S : Int)))
    (hbk : ∀ n, 1 ≤ n → n ≤ (T + S - 1) / S →
      bk (dictSet (preparePageParams p0) "page" (JVal.num (n : Int))) =
        Except.ok (mkPageDoc (T : Int) (rs n)))
    (hlen : ∀ n, 1 ≤ n → n ≤ (T + S - 1) / S →
      (rs n).length = min S (T - (n - 1) * S)) :
    getAllPages bk c now ttl iseBase apiPath p0 false =
      (Except.ok (mkPageDoc (T : Int) (((List.range' 1 ((T + S - 1) / S)).map rs).flatten)),
       c,
       (List.range' 1 ((T + S - 1) / S)).map
         (fun n => dictSet (preparePageParams p0) "page" (JVal.num (n : Int)))) ∧
    ((((List.range' 1 ((T + S - 1) / S)).map rs).flatten).length = T) ∧
    (List.range' 1 ((T + S - 1) / S)).Nodup ∧
    (∀ n ∈ List.range' 1 ((T + S - 1) / S), 1 ≤ n ∧ n ≤ (T + S - 1) / S) := by
  have hP1 : 1 ≤ (T + S - 1) / S := by
    rw [Nat.le_div_iff_mul_le hS]
    omega
  have hlenconc : (((List.range' 1 ((T + S - 1) / S)).map rs).flatten).length = T := by
    rw [List.length_flatten, List.map_map]
    have hcong : ∀ n ∈ List.range' 1 ((T + S - 1) / S),
        (List.length ∘ rs) n = (fun n => min S (T - (n - 1) * S)) n := by
      intro n hn
      obtain ⟨h1, h2⟩ := List.mem_range'_1.mp hn
      exact hlen n h1 (by omega)
    rw [List.map_congr_left hcong, sum_min_chunks T hT S hS]
  have hnd : (List.range' 1 ((T + S - 1) / S)).Nodup := List.nodup_range' _ _
  have hbnd : ∀ n ∈ List.range' 1 ((T + S - 1) / S), 1 ≤ n ∧ n ≤ (T + S - 1) / S := by
    intro n hn
    obtain ⟨h1, h2⟩ := List.mem_range'_1.mp hn
    omega
  refine ⟨?_, hlenconc, hnd, hbnd⟩
  have hpage : plookup "page" (preparePageParams p0) = some (JVal.num 1) := by
    unfold preparePageParams
    exact plookup_dictSet_same _ _ _
  have hpp1 : dictSet (preparePageParams p0) "page" (JVal.num 1) =
      preparePageParams p0 := dictSet_same_of_lookup _ _ _ hpage
  have hbk1 : bk (preparePageParams p0) = Except.ok (mkPageDoc (T : Int) (rs 1)) := by
    rw [← hpp1]
    exact hbk 1 le_rfl hP1
  have hfd : Int.fdiv ((T : Int) + (S : Int) - 1) (S : Int) = (((T + S - 1) / S : Nat) : Int) := by
    rw [show ((T : Int) + (S : Int) - 1) = (((T + S - 1 : Nat)) : Int) by omega]
    exact (Int.ofNat_fdiv _ _).symm
  have hS0 : ¬ ((S : Int) = 0) := by
    simp
    omega
  simp only [getAllPages, getSingle_nocache_eval bk now ttl (iseBase ++ apiPath) _ c _ hbk1,
    pyIn_SR_mkPageDoc, pySub_mkPageDoc, pyIn_total_inner, pySub_total_inner, pyArithInt,
    hsize, Option.elim, pyInt, hS0, hfd, pyGetD_resources_inner]
  by_cases hPle : (T + S - 1) / S ≤ 1
  · have hPeq : (T + S - 1) / S = 1 := le_antisymm hPle hP1
    have hle : (((T + S - 1) / S : Nat) : Int) ≤ 1 := by
      rw [hPeq]
      norm_num
    rw [if_pos hle, hPeq]
    simp [List.range', hpp1]
  · have hgt : ¬ ((((T + S - 1) / S : Nat) : Int) ≤ 1) := by
      simp
      omega
    rw [if_neg hgt]
    have htoNat : ((((T + S - 1) / S : Nat) : Int)).toNat = (T + S - 1) / S := Int.toNat_ofNat _
    rw [htoNat]
    rw [pageLoop_ok bk now ttl (iseBase ++ apiPath) (preparePageParams p0) (T : Int) rs
      (List.range' 2 ((T + S - 1) / S - 1)) (rs 1) c [preparePageParams p0]
      (fun m hm => by
        obtain ⟨h1, h2⟩ := List.mem_range'_1.mp hm
        exact hbk m (by omega) (by omega))]
    rw [jSet_mkPageDoc]
    have hsplit : List.range' 1 ((T + S - 1) / S) = 1 :: List.range' 2 ((T + S - 1) / S - 1) := by
      conv_lhs => rw [show (T + S - 1) / S = ((T + S - 1) / S - 1) + 1 by omega]
      rw [List.range'_succ]
    rw [hsplit]
    simp [hpp1]

/-- C3 witness: the claim's own instance — total 250, size 100, three
pages of `min(size, remaining)` resources each — yields exactly the page
requests 1, 2, 3 and a 250-element merge. -/
theorem paginator_full_merge_witness :
    (getAllPages
        (fun ps => match plookup "page" ps with
          | some (JVal.num m) =>
            Except.ok (mkPageDoc 250
              (List.replicate (min 100 (250 - (m.toNat - 1) * 100)) JVal.null))
          | _ => Except.error (Err.tool "bad")) [] 0 300 "https://ise" "/ers/config/endpoint"
        [("size", JVal.num 100)] false).1 =
      Except.ok (mkPageDoc 250 (((List.range' 1 3).map
        (fun n => List.replicate (min 100 (250 - (n - 1) * 100)) JVal.null)).flatten)) ∧
    (((List.range' 1 3).map
        (fun n => List.replicate (min 100 (250 - (n - 1) * 100)) JVal.null)).flatten).length =
      250 := by
  have main := paginator_full_merge
    (fun ps => match plookup "page" ps with
      | some (JVal.num m) =>
        Except.ok (mkPageDoc 250
          (List.replicate (min 100 (250 - (m.toNat - 1) * 100)) JVal.null))
      | _ => Except.error (Err.tool "bad")) 0 300 "https://ise" "/ers/config/endpoint"
    [("size", JVal.num 100)] []
    250 100 (fun n => List.replicate (min 100 (250 - (n - 1) * 100)) JVal.null)
    (by norm_num) (by norm_num) rfl
    (by
      intro n h1 h2
      have h3 : n ≤ 3 := by omega
      interval_cases n <;> rfl)
    (by
      intro n h1 h2
      have h3 : n ≤ 3 := by omega
      interval_cases n <;> rfl)
  refine ⟨?_, main.2.1⟩
  rw [main.1]
  rfl

/-- C9: a successful multi-page merge differs from the page-1 response
only in `SearchResult.resources`: the merged document is the page-1
document with just that binding replaced, so every other top-level
binding and every other `SearchResult` binding (including `total`) is
unchanged. -/
theorem merged_doc_frame (bk : Params → Except Err JVal) (now ttl : ℚ)
    (iseBase apiPath : String) (p0 : Params) (c : CacheState)
    (tl srl : List (String × JVal)) (T S : Int)
    (hbk1 : bk (preparePageParams p0) = Except.ok (JVal.obj tl))
    (hsr : plookup "SearchResult" tl = some (JVal.obj srl))
    (htot : plookup "total" srl = some (JVal.num T))
    (hsize : plookup "size" (preparePageParams p0) = some (JVal.num S))
    (hS : 0 < S)
    (htp : 2 ≤ Int.fdiv (T + S - 1) S) :
    ∃ newRes : JVal,
      (getAllPages bk c now ttl iseBase apiPath p0 false).1 =
        Except.ok (JVal.obj (dictSet tl "SearchResult"
          (JVal.obj (dictSet srl "resources" newRes)))) ∧
      (∀ k2, ¬ k2 = "SearchResult" →
        plookup k2 (dictSet tl "SearchResult"
          (JVal.obj (dictSet srl "resources" newRes))) = plookup k2 tl) ∧
      (∀ k2, ¬ k2 = "resources" →
        plookup k2 (dictSet srl "resources" newRes) = plookup k2 srl) := by
  have e2 : pyIn "SearchResult" (JVal.obj tl) = Except.ok true := by
    simp [pyIn, hsr]
  have e3 : pySub (JVal.obj tl) "SearchResult" = Except.ok (JVal.obj srl) := by
    simp [pySub, hsr]
  have e4 : pyIn "total" (JVal.obj srl) = Except.ok true := by
    simp [pyIn, htot]
  have e5 : pySub (JVal.obj srl) "total" = Except.ok (JVal.num T) := by
    simp [pySub, htot]
  have e6 : pyGetD (JVal.obj srl) "resources" (JVal.arr []) =
      Except.ok ((plookup "resources" srl).getD (JVal.arr [])) := by
    simp [pyGetD]
  have hS0 : ¬ (S = 0) := by omega
  have htp2 : ¬ (Int.fdiv (T + S - 1) S ≤ 1) := by omega
  simp only [getAllPages, getSingle_nocache_eval bk now ttl (iseBase ++ apiPath) _ c _ hbk1,
    e2, e3, e4, e5, pyArithInt, hsize, Option.elim, pyInt, e6]
  rw [if_neg hS0, if_neg htp2]
  exact ⟨_, rfl, fun k2 hk2 => plookup_dictSet_ne _ _ _ _ hk2,
    fun k2 hk2 => plookup_dictSet_ne _ _ _ _ hk2⟩

/-- C9 witness: a concrete two-page merge keeping the extra top-level
binding and the `total` binding intact. -/
theorem merged_doc_frame_witness :
    ∃ newRes : JVal,
      (getAllPages
          (fun _ => Except.ok (JVal.obj
            [("SearchResult",
              JVal.obj [("total", JVal.num 3), ("resources", JVal.arr [JVal.num 7])]),
             ("extra", JVal.num 9)])) [] 0 300 "https://ise" "/x"
          [("size", JVal.num 2)] false).1 =
        Except.ok (JVal.obj (dictSet
          [("SearchResult",
            JVal.obj [("total", JVal.num 3), ("resources", JVal.arr [JVal.num 7])]),
           ("extra", JVal.num 9)] "SearchResult"
          (JVal.obj (dictSet [("total", JVal.num 3), ("resources", JVal.arr [JVal.num 7])]
            "resources" newRes)))) ∧
      (∀ k2, ¬ k2 = "SearchResult" →
        plookup k2 (dictSet
          [("SearchResult",
            JVal.obj [("total", JVal.num 3), ("resources", JVal.arr [JVal.num 7])]),
           ("extra", JVal.num 9)] "SearchResult"
          (JVal.obj (dictSet [("total", JVal.num 3), ("resources", JVal.arr [JVal.num 7])]
            "resources" newRes))) =
          plookup k2
            [("SearchResult",
              JVal.obj [("total", JVal.num 3), ("resources", JVal.arr [JVal.num 7])]),
             ("extra", JVal.num 9)]) ∧
      (∀ k2, ¬ k2 = "resources" →
        plookup k2 (dictSet [("total", JVal.num 3), ("resources", JVal.arr [JVal.num 7])]
          "resources" newRes) =
          plookup k2 [("total", JVal.num 3), ("resources", JVal.arr [JVal.num 7])]) :=
  merged_doc_frame
    (fun _ => Except.ok (JVal.obj
      [("SearchResult",
        JVal.obj [("total", JVal.num 3), ("resources", JVal.arr [JVal.num 7])]),
       ("extra", JVal.num 9)])) 0 300 "https://ise" "/x" [("size", JVal.num 2)] []
    [("SearchResult", JVal.obj [("total", JVal.num 3), ("resources", JVal.arr [JVal.num 7])]),
     ("extra", JVal.num 9)]
    [("total", JVal.num 3), ("resources", JVal.arr [JVal.num 7])] 3 2
    rfl rfl rfl rfl (by norm_num) (by decide)

theorem dictSet_ne_nil (l : Params) (k : String) (v : JVal) : ¬ dictSet l k v = [] := by
  cases l with
  | nil => simp [dictSet]
  | cons kv rest =>
    simp only [dictSet]
    split <;> simp

/-- Distinct `page` values produce distinct cache keys (for duplicate-free
parameter maps): the sorted-JSON serialization is injective. -/
theorem get_cache_key_page_inj (url : String) (rp : Params) (hnd : nodupKeys rp)
    (m n : Int)
    (h : get_cache_key url (dictSet rp "page" (JVal.num m)) =
      get_cache_key url (dictSet rp "page" (JVal.num n))) : m = n := by
  have hnd1 : nodupKeys (dictSet rp "page" (JVal.num m)) := nodupKeys_dictSet rp _ _ hnd
  have hnd2 : nodupKeys (dictSet rp "page" (JVal.num n)) := nodupKeys_dictSet rp _ _ hnd
  have he1 : (dictSet rp "page" (JVal.num m)).isEmpty = false := by
    have h0 := dictSet_ne_nil rp "page" (JVal.num m)
    simpa [List.isEmpty_iff]
  have he2 : (dictSet rp "page" (JVal.num n)).isEmpty = false := by
    have h0 := dictSet_ne_nil rp "page" (JVal.num n)
    simpa [List.isEmpty_iff]
  unfold get_cache_key at h
  rw [he1, he2] at h
  simp only [Bool.false_eq_true, if_false] at h
  have hd := congrArg String.data h
  rw [String.data_append, String.data_append, String.data_append, String.data_append] at hd
  have hd2 := List.append_cancel_left hd
  have hss := congrArg String.mk hd2
  rw [strMk_data, strMk_data] at hss
  have hss2 : dumps (sortKeysDeep (JVal.obj (dictSet rp "page" (JVal.num m)))) =
      dumps (sortKeysDeep (JVal.obj (dictSet rp "page" (JVal.num n)))) := hss
  have hkeyeq := dumps_injective _ _ hss2
  rw [show sortKeysDeep (JVal.obj (dictSet rp "page" (JVal.num m))) =
      JVal.obj (sortPairs (sortVals (dictSet rp "page" (JVal.num m)))) from rfl,
    show sortKeysDeep (JVal.obj (dictSet rp "page" (JVal.num n))) =
      JVal.obj (sortPairs (sortVals (dictSet rp "page" (JVal.num n)))) from rfl] at hkeyeq
  have hlist := JVal.obj.inj hkeyeq
  have hl1 : plookup "page" (sortPairs (sortVals (dictSet rp "page" (JVal.num m)))) =
      some (JVal.num m) := by
    rw [plookup_perm _ _ (sortPairs_perm _)
      (nodupKeys_perm _ _ (sortPairs_perm _).symm (nodupKeys_sortVals _ hnd1)) "page",
      plookup_sortVals, plookup_dictSet_same]
    rfl
  have hl2 : plookup "page" (sortPairs (sortVals (dictSet rp "page" (JVal.num n)))) =
      some (JVal.num n) := by
    rw [plookup_perm _ _ (sortPairs_perm _)
      (nodupKeys_perm _ _ (sortPairs_perm _).symm (nodupKeys_sortVals _ hnd2)) "page",
      plookup_sortVals, plookup_dictSet_same]
    rfl
  have hfin := congrArg (plookup "page") hlist
  rw [hl1, hl2] at hfin
  exact JVal.num.inj (Option.some.inj hfin)

theorem cacheFind_none_of (c : CacheState) (k : String)
    (h : ∀ e ∈ c, ¬ e.key = k) : cacheFind c k = none := by
  rw [cacheFind, List.find?_eq_none]
  intro e he
  simpa using h e he

theorem cacheGet_none_of (c : CacheState) (now : ℚ) (k : String)
    (h : ∀ e ∈ c, ¬ e.key = k) : cacheGet c now k = none := by
  simp [cacheGet, cacheFind_none_of c k h]

theorem getSingle_miss_ok (bk : Params → Except Err JVal) (c : CacheState) (now ttl : ℚ)
    (url : String) (ps : Params) (v : JVal)
    (hm : cacheGet c now (get_cache_key url ps) = none)
    (hb : bk ps = Except.ok v) :
    getSingle bk c now ttl url ps true =
      (Except.ok v, cacheSet c (get_cache_key url ps) (dumps v) now ttl) := by
  simp [getSingle, hm, hb]

theorem getSingle_miss_err (bk : Params → Except Err JVal) (c : CacheState) (now ttl : ℚ)
    (url : String) (ps : Params) (e : Err)
    (hm : cacheGet c now (get_cache_key url ps) = none)
    (hb : bk ps = Except.error e) :
    getSingle bk c now ttl url ps true = (Except.error e, c) := by
  simp [getSingle, hm, hb]

theorem cacheSet_mem (c : CacheState) (k body : String) (now ttl : ℚ) (e : CacheEntry)
    (h : e ∈ cacheSet c k body now ttl) : e.key = k ∨ e ∈ c := by
  simp only [cacheSet, List.mem_cons, List.mem_filter] at h
  rcases h with h | ⟨h1, _⟩
  · left
    rw [h]
  · right
    exact h1

theorem cacheFind_set_same (c : CacheState) (k body : String) (now ttl : ℚ) :
    cacheFind (cacheSet c k body now ttl) k = some ⟨k, body, now, ttl⟩ := by
  simp [cacheFind, cacheSet]

/-- Running the page loop over good pages followed by a failing page, on a
cache holding no entry for any of those page keys: each page misses the
cache, the good pages accumulate their resources, the failing page breaks
the loop, and the trace records exactly the attempted pages. -/
theorem pageLoop_cold (bk : Params → Except Err JVal) (now ttl : ℚ) (url : String)
    (rp : Params) (T : Int) (rs : Nat → List JVal) (err0 : Err) (k : Nat)
    (hinj : ∀ m2 n2 : Nat, ¬ m2 = n2 →
      ¬ get_cache_key url (dictSet rp "page" (JVal.num (m2 : Int))) =
        get_cache_key url (dictSet rp "page" (JVal.num (n2 : Int))))
    (hfail : bk (dictSet rp "page" (JVal.num (k : Int))) = Except.error err0)
    (rest : List Nat) :
    ∀ (goodNs : List Nat) (accl : List JVal) (c : CacheState) (tr : List Params),
    (∀ n ∈ goodNs, bk (dictSet rp "page" (JVal.num (n : Int))) =
      Except.ok (mkPageDoc T (rs n))) →
    (goodNs ++ [k]).Nodup →
    (∀ e2 ∈ c, ∀ n ∈ goodNs ++ [k],
      ¬ e2.key = get_cache_key url (dictSet rp "page" (JVal.num (n : Int)))) →
    ∃ cOut : CacheState,
      pageLoop bk now ttl url rp true (goodNs ++ k :: rest) (JVal.arr accl) c tr =
        (JVal.arr (accl ++ (goodNs.map rs).flatten), cOut,
         tr ++ (goodNs ++ [k]).map (fun n => dictSet rp "page" (JVal.num (n : Int))))
  | [], accl, c, tr, _, _, hc => by
    have hm : cacheGet c now (get_cache_key url (dictSet rp "page" (JVal.num (k : Int)))) =
        none := cacheGet_none_of _ _ _ (fun e2 he2 => hc e2 he2 k (by simp))
    refine ⟨c, ?_⟩
    simp only [List.nil_append, pageLoop,
      getSingle_miss_err bk c now ttl url _ err0 hm hfail]
    simp
  | g :: gs, accl, c, tr, hgood, hnd, hc => by
    have hm : cacheGet c now (get_cache_key url (dictSet rp "page" (JVal.num (g : Int)))) =
        none := cacheGet_none_of _ _ _ (fun e2 he2 => hc e2 he2 g (by simp))
    have hbg : bk (dictSet rp "page" (JVal.num (g : Int))) = Except.ok (mkPageDoc T (rs g)) :=
      hgood g (by simp)
    have hgood2 : ∀ n ∈ gs, bk (dictSet rp "page" (JVal.num (n : Int))) =
        Except.ok (mkPageDoc T (rs n)) := fun n hn => hgood n (by simp [hn])
    have hgnotin : g ∉ gs ++ [k] := by
      have h0 := hnd
      simp only [List.cons_append, List.nodup_cons] at h0
      exact h0.1
    have hnd2 : (gs ++ [k]).Nodup := by
      have h0 := hnd
      simp only [List.cons_append, List.nodup_cons] at h0
      exact h0.2
    have hc2 : ∀ e2 ∈ cacheSet c (get_cache_key url (dictSet rp "page" (JVal.num (g : Int))))
        (dumps (mkPageDoc T (rs g))) now ttl,
        ∀ n ∈ gs ++ [k],
        ¬ e2.key = get_cache_key url (dictSet rp "page" (JVal.num (n : Int))) := by
      intro e2 he2 n hn
      rcases cacheSet_mem _ _ _ _ _ _ he2 with hke | hmem
      · rw [hke]
        refine hinj g n (fun he => ?_)
        exact hgnotin (he ▸ hn)
      · exact hc e2 hmem n (List.mem_cons_of_mem g hn)
    obtain ⟨cOut, hrec⟩ := pageLoop_cold bk now ttl url rp T rs err0 k hinj hfail rest gs
      (accl ++ rs g)
      (cacheSet c (get_cache_key url (dictSet rp "page" (JVal.num (g : Int))))
        (dumps (mkPageDoc T (rs g))) now ttl)
      (tr ++ [dictSet rp "page" (JVal.num (g : Int))]) hgood2 hnd2 hc2
    refine ⟨cOut, ?_⟩
    simp only [List.cons_append, pageLoop,
      getSingle_miss_ok bk c now ttl url _ _ hm hbg,
      pySub_mkPageDoc, pyGetD_resources_inner, pyExtend]
    rw [List.append_eq, hrec]
    simp

/-- C2: when a page numbered 2 or higher fails during a paginated fetch
(with caching enabled, starting from an empty cache), the paginator stops
at the failing page, raises no error, returns the merge of exactly the
pages that succeeded, and still writes that partial merge to the
paginated cache entry with the configured TTL. -/
theorem partial_merge_on_page_failure (bk : Params → Except Err JVal) (now ttl : ℚ)
    (iseBase apiPath : String) (p0 : Params) (T S : Int) (rs : Nat → List JVal)
    (err0 : Err) (k : Nat)
    (hnd : nodupKeys p0)
    (hsize : plookup "size" (preparePageParams p0) = some (JVal.num S))
    (hS : ¬ S = 0)
    (hk2 : 2 ≤ k)
    (hktp : (k : Int) ≤ Int.fdiv (T + S - 1) S)
    (hbkgood : ∀ n, 1 ≤ n → n < k →
      bk (dictSet (preparePageParams p0) "page" (JVal.num (n : Int))) =
        Except.ok (mkPageDoc T (rs n)))
    (hfail : bk (dictSet (preparePageParams p0) "page" (JVal.num (k : Int))) =
      Except.error err0) :
    ∃ cOut : CacheState,
      getAllPages bk [] now ttl iseBase apiPath p0 true =
        (Except.ok (mkPageDoc T (((List.range' 1 (k - 1)).map rs).flatten)),
         cacheSet cOut (paginatedCacheKey (iseBase ++ apiPath) (preparePageParams p0))
           (dumps (mkPageDoc T (((List.range' 1 (k - 1)).map rs).flatten))) now ttl,
         (List.range' 1 k).map
           (fun n => dictSet (preparePageParams p0) "page" (JVal.num (n : Int)))) ∧
      cacheFind
          (cacheSet cOut (paginatedCacheKey (iseBase ++ apiPath) (preparePageParams p0))
            (dumps (mkPageDoc T (((List.range' 1 (k - 1)).map rs).flatten))) now ttl)
          (paginatedCacheKey (iseBase ++ apiPath) (preparePageParams p0)) =
        some ⟨paginatedCacheKey (iseBase ++ apiPath) (preparePageParams p0),
          dumps (mkPageDoc T (((List.range' 1 (k - 1)).map rs).flatten)), now, ttl⟩ := by
  have hndrp : nodupKeys (preparePageParams p0) := by
    unfold preparePageParams
    apply nodupKeys_dictSet
    split
    · exact nodupKeys_dictSet _ _ _ hnd
    · exact hnd
  have hinj : ∀ m2 n2 : Nat, ¬ m2 = n2 →
      ¬ get_cache_key (iseBase ++ apiPath)
          (dictSet (preparePageParams p0) "page" (JVal.num (m2 : Int))) =
        get_cache_key (iseBase ++ apiPath)
          (dictSet (preparePageParams p0) "page" (JVal.num (n2 : Int))) := by
    intro m2 n2 hne he
    apply hne
    have hmn := get_cache_key_page_inj (iseBase ++ apiPath) (preparePageParams p0) hndrp _ _ he
    exact_mod_cast hmn
  have hpage : plookup "page" (preparePageParams p0) = some (JVal.num 1) := by
    unfold preparePageParams
    exact plookup_dictSet_same _ _ _
  have hpp1 : dictSet (preparePageParams p0) "page" (JVal.num 1) = preparePageParams p0 :=
    dictSet_same_of_lookup _ _ _ hpage
  have hbk1 : bk (preparePageParams p0) = Except.ok (mkPageDoc T (rs 1)) := by
    have h0 := hbkgood 1 le_rfl (by omega)
    rwa [show ((1 : Nat) : Int) = 1 by norm_num, hpp1] at h0
  have hpagmiss : cacheGet [] now
      (paginatedCacheKey (iseBase ++ apiPath) (preparePageParams p0)) = none := rfl
  have hmiss1 : cacheGet [] now
      (get_cache_key (iseBase ++ apiPath) (preparePageParams p0)) = none := rfl
  have hfr : getSingle bk [] now ttl (iseBase ++ apiPath) (preparePageParams p0) true =
      (Except.ok (mkPageDoc T (rs 1)),
       cacheSet [] (get_cache_key (iseBase ++ apiPath) (preparePageParams p0))
         (dumps (mkPageDoc T (rs 1))) now ttl) :=
    getSingle_miss_ok bk [] now ttl (iseBase ++ apiPath) _ _ hmiss1 hbk1
  have hgt : ¬ (Int.fdiv (T + S - 1) S ≤ 1) := by
    have h2 : (2 : Int) ≤ Int.fdiv (T + S - 1) S :=
      le_trans (by exact_mod_cast hk2) hktp
    omega
  have hktn : k ≤ (Int.fdiv (T + S - 1) S).toNat := by omega
  obtain ⟨tpn, htpn⟩ : ∃ tpn, (Int.fdiv (T + S - 1) S).toNat = tpn := ⟨_, rfl⟩
  rw [htpn] at hktn
  have hc2k : List.range' 2 ((k - 2) + 1) = List.range' 2 (k - 2) ++ [k] := by
    have e : List.range' 2 ((k - 2) + 1) = List.range' 2 (k - 2) ++ [2 + 1 * (k - 2)] :=
      List.range'_concat 2 (k - 2)
    rw [show 2 + 1 * (k - 2) = k by omega] at e
    exact e
  have hpages : List.range' 2 (tpn - 1) =
      List.range' 2 (k - 2) ++ k :: List.range' (k + 1) (tpn - k) := by
    have e1 : List.range' 2 (k - 2) ++ List.range' (2 + (k - 2)) (tpn - k + 1) =
        List.range' 2 ((tpn - k + 1) + (k - 2)) := List.range'_append_1 2 (k - 2) (tpn - k + 1)
    have e4 : List.range' (2 + (k - 2)) (tpn - k + 1) =
        k :: List.range' (k + 1) (tpn - k) := by
      rw [show 2 + (k - 2) = k by omega, List.range'_succ]
    rw [e4, show (tpn - k + 1) + (k - 2) = tpn - 1 by omega] at e1
    exact e1.symm
  have hgoodr : ∀ n ∈ List.range' 2 (k - 2),
      bk (dictSet (preparePageParams p0) "page" (JVal.num (n : Int))) =
        Except.ok (mkPageDoc T (rs n)) := by
    intro n hn
    obtain ⟨h1, h2⟩ := List.mem_range'_1.mp hn
    exact hbkgood n (by omega) (by omega)
  have hndg : (List.range' 2 (k - 2) ++ [k]).Nodup := by
    rw [← hc2k]
    exact List.nodup_range' _ _
  have hkey1 : get_cache_key (iseBase ++ apiPath) (preparePageParams p0) =
      get_cache_key (iseBase ++ apiPath)
        (dictSet (preparePageParams p0) "page" (JVal.num ((1 : Nat) : Int))) := by
    rw [show ((1 : Nat) : Int) = 1 by norm_num, hpp1]
  have hc1 : ∀ e2 ∈ cacheSet [] (get_cache_key (iseBase ++ apiPath) (preparePageParams p0))
      (dumps (mkPageDoc T (rs 1))) now ttl,
      ∀ n ∈ List.range' 2 (k - 2) ++ [k],
      ¬ e2.key = get_cache_key (iseBase ++ apiPath)
        (dictSet (preparePageParams p0) "page" (JVal.num (n : Int))) := by
    intro e2 he2 n hn
    rcases cacheSet_mem _ _ _ _ _ _ he2 with hke | hmem
    · rw [hke, hkey1]
      have h2n : 2 ≤ n := by
        rcases List.mem_append.mp hn with h | h
        · exact (List.mem_range'_1.mp h).1
        · simp at h
          omega
      exact hinj 1 n (by omega)
    · simp at hmem
  obtain ⟨cOut, hlp⟩ := pageLoop_cold bk now ttl (iseBase ++ apiPath) (preparePageParams p0)
    T rs err0 k hinj hfail (List.range' (k + 1) (tpn - k))
    (List.range' 2 (k - 2)) (rs 1)
    (cacheSet [] (get_cache_key (iseBase ++ apiPath) (preparePageParams p0))
      (dumps (mkPageDoc T (rs 1))) now ttl)
    [preparePageParams p0]
    hgoodr hndg hc1
  have hr1 : List.range' 1 (k - 1) = 1 :: List.range' 2 (k - 2) := by
    rw [show k - 1 = (k - 2) + 1 by omega, List.range'_succ]
  have hr2 : List.range' 1 k = 1 :: (List.range' 2 (k - 2) ++ [k]) := by
    conv_lhs => rw [show k = ((k - 2) + 1) + 1 by omega]
    rw [List.range'_succ, hc2k]
  refine ⟨cOut, ?_, cacheFind_set_same _ _ _ _ _⟩
  simp only [getAllPages, hpagmiss, hfr, pyIn_SR_mkPageDoc, pySub_mkPageDoc,
    pyIn_total_inner, pySub_total_inner, pyArithInt, hsize, Option.elim, pyInt, hS,
    pyGetD_resources_inner]
  rw [if_neg hgt, htpn, hpages, hlp, jSet_mkPageDoc, hr1, hr2]
  simp [hpp1]

/-- C2 witness: total 250, size 100; pages 1 and 2 succeed with one
resource each, page 3 fails — the call returns the two-page merge, traces
pages 1..3, and writes the partial merge under the paginated key with the
configured TTL. -/
theorem partial_merge_on_page_failure_witness :
    ∃ cOut : CacheState,
      getAllPages
          (fun ps => match plookup "page" ps with
            | some (JVal.num m) =>
              if m = 3 then Except.error (Err.tool "boom")
              else Except.ok (mkPageDoc 250 [JVal.num m])
            | _ => Except.error (Err.tool "bad"))
          [] 0 300 "https://ise" "/ers/config/endpoint" [("size", JVal.num 100)] true =
        (Except.ok (mkPageDoc 250 (((List.range' 1 2).map
           (fun n => [JVal.num (n : Int)])).flatten)),
         cacheSet cOut
           (paginatedCacheKey ("https://ise" ++ "/ers/config/endpoint")
             (preparePageParams [("size", JVal.num 100)]))
           (dumps (mkPageDoc 250 (((List.range' 1 2).map
             (fun n => [JVal.num (n : Int)])).flatten))) 0 300,
         (List.range' 1 3).map
           (fun n => dictSet (preparePageParams [("size", JVal.num 100)]) "page"
             (JVal.num (n : Int)))) ∧
      cacheFind
          (cacheSet cOut
            (paginatedCacheKey ("https://ise" ++ "/ers/config/endpoint")
              (preparePageParams [("size", JVal.num 100)]))
            (dumps (mkPageDoc 250 (((List.range' 1 2).map
              (fun n => [JVal.num (n : Int)])).flatten))) 0 300)
          (paginatedCacheKey ("https://ise" ++ "/ers/config/endpoint")
            (preparePageParams [("size", JVal.num 100)])) =
        some ⟨paginatedCacheKey ("https://ise" ++ "/ers/config/endpoint")
            (preparePageParams [("size", JVal.num 100)]),
          dumps (mkPageDoc 250 (((List.range' 1 2).map
            (fun n => [JVal.num (n : Int)])).flatten)), 0, 300⟩ :=
  partial_merge_on_page_failure
    (fun ps => match plookup "page" ps with
      | some (JVal.num m) =>
        if m = 3 then Except.error (Err.tool "boom")
        else Except.ok (mkPageDoc 250 [JVal.num m])
      | _ => Except.error (Err.tool "bad"))
    0 300 "https://ise" "/ers/config/endpoint" [("size", JVal.num 100)] 250 100
    (fun n => [JVal.num (n : Int)]) (Err.tool "boom") 3
    (by simp [nodupKeys]) rfl (by norm_num) (by norm_num) (by decide)
    (by
      intro n h1 h2
      interval_cases n <;> rfl)
    rfl

end ISEMCP
